import Mathlib

/-!
Verification of `push-down-test/src/util.go`.

A shallow embedding of the result-set utilities of the push-down test harness:
`ByteRows` with its `sort.Interface` methods, `SqlRowsToByteRows`,
`WriteQueryResult` and `Assert`.

Conventions of the embedding.

* A Go `byte` is a `Fin 256`; a Go `string` and the contents of a `bytes.Buffer`
  are lists of bytes.
* A Go `[]byte` that may be `nil` is an `Option (List Byte)`: `none` is the `nil`
  slice (what `database/sql` stores for SQL NULL), `some bs` a non-nil slice,
  `some []` being the empty non-nil slice.
* A Go slice of rows is a `List`.
* A `*sql.Rows` cursor is the list of rows that `Next` still advances to, together with
  how it stops after them: at the end of the result or on an error of the driver, which
  `Next` reports by returning `false` and keeps for `rows.Err()`.
* The clock and the database that `waitTiFlashReplica` polls are the list of iterations
  they present: the elapsed time read at the top of the iteration and the answer to the
  query.
* A Go panic is an explicit outcome: `none` for the index-out-of-range panic of
  `Less`, `WriteOutcome.panicked` (with the buffer as it is at that moment) for the
  panic raised through `Assert`.
-/

namespace PushDownTest

/-! ## Bytes, strings and nullable cells -/

/-- A Go `byte`. -/
abbrev Byte := Fin 256

/-- A Go `string`: an immutable sequence of bytes. -/
abbrev GoString := List Byte

/-- The contents of a `bytes.Buffer`. -/
abbrev Buffer := List Byte

/-- A Go `[]byte` cell: `none` is the `nil` slice (SQL NULL), `some bs` a non-nil slice. -/
abbrev Cell := Option (List Byte)

/-- The bytes of an ASCII string literal of the source. -/
def str (s : String) : GoString := s.toList.map (fun c => Fin.ofNat c.toNat)

/-- The byte content of a `[]byte`: a `nil` slice has no bytes, like the empty slice. -/
def cellBytes : Cell → List Byte
  | none => []
  | some bs => bs

/-- Go `bytes.Compare` on byte contents: lexicographic comparison giving `-1`, `0` or `1`. -/
def compareBytes : List Byte → List Byte → Int
  | [], [] => 0
  | [], _ :: _ => -1
  | _ :: _, [] => 1
  | a :: as, b :: bs =>
    if a < b then -1 else if b < a then 1 else compareBytes as bs

/-- Go `bytes.Compare(a, b)`: "a nil argument is equivalent to an empty slice". -/
def bytesCompare (a b : Cell) : Int := compareBytes (cellBytes a) (cellBytes b)

/-! ## `ByteRow`, `ByteRows` and the `sort.Interface` methods -/

/-- Go `type ByteRow struct { Data [][]byte }`. -/
structure ByteRow where
  Data : List Cell
deriving DecidableEq, Repr

/-- Go `type ByteRows struct { Cols []string; Data []ByteRow }`. -/
structure ByteRows where
  Cols : List GoString
  Data : List ByteRow
deriving DecidableEq, Repr

/-- Go `func (rows *ByteRows) Len() int`. -/
def ByteRows.Len (rows : ByteRows) : Nat := rows.Data.length

/-- The loop `for i := 0; i < len(r1.Data); i++ { ... }` of `Less`, run over the remaining
values of `i`. `none` is the index-out-of-range panic of `r2.Data[i]`. -/
def lessLoop (r1 r2 : ByteRow) : List Nat → Option Bool
  | [] => some false
  | i :: is =>
    match r1.Data[i]?, r2.Data[i]? with
    | some a, some b =>
      let res := bytesCompare a b
      if res = -1 then some true
      else if res = 1 then some false
      else lessLoop r1 r2 is
    | _, _ => none

/-- The body of `Less` once both rows are fetched. -/
def ByteRow.Less (r1 r2 : ByteRow) : Option Bool :=
  lessLoop r1 r2 (List.range r1.Data.length)

/-- Go `func (rows *ByteRows) Less(i, j int) bool`; `none` is an index-out-of-range panic. -/
def ByteRows.Less (rows : ByteRows) (i j : Nat) : Option Bool :=
  match rows.Data[i]? with
  | none => none
  | some r1 =>
    match rows.Data[j]? with
    | none => none
    | some r2 => ByteRow.Less r1 r2

/-- The loop of `Less` as a recursion over the cells of the two rows that remain to be
compared: the form of `lessLoop` used in the proofs (see `lessLoop_range`). -/
def lessCells : List Cell → List Cell → Option Bool
  | [], _ => some false
  | _ :: _, [] => none
  | a :: as, b :: bs =>
    if bytesCompare a b = -1 then some true
    else if bytesCompare a b = 1 then some false
    else lessCells as bs

/-- The byte contents of the cells of a row, column by column. -/
def ByteRow.key (r : ByteRow) : List (List Byte) := r.Data.map cellBytes

/-- The cell of row `i`, column `c`, when there is one. -/
def ByteRows.cellAt (rows : ByteRows) (i c : Nat) : Option Cell :=
  match rows.Data[i]? with
  | none => none
  | some r => r.Data[c]?

/-- Two cells are the same, or one is NULL where the other is a non-NULL byte sequence. -/
def differOnlyByNull (x y : Cell) : Prop :=
  x = y ∨ (x = none ∧ y ≠ none) ∨ (x ≠ none ∧ y = none)

/-- Two cells are the same, or one is NULL where the other is the empty byte sequence. -/
def differOnlyByNullEmpty (x y : Cell) : Prop :=
  x = y ∨ (x = none ∧ y = some []) ∨ (x = some [] ∧ y = none)

/-- No row is `Less` than a row placed before it. -/
def ByteRows.sortedByLess (rows : ByteRows) : Prop :=
  ∀ j : Nat, j < rows.Len → ∀ i : Nat, i < j → rows.Less j i ≠ some true

/-! ## `WriteQueryResult` and `Assert` -/

/-- How a call that writes into a `bytes.Buffer` ends: normally, or by a panic carrying a
message; either way `buf` is the content of the buffer at that moment. -/
inductive WriteOutcome where
  | done (buf : Buffer)
  | panicked (msg : String) (buf : Buffer)
deriving DecidableEq, Repr

/-- The buffer content when the call ended. -/
def WriteOutcome.buf : WriteOutcome → Buffer
  | .done b => b
  | .panicked _ b => b

/-- Whether the call ended by a panic. -/
def WriteOutcome.aborted : WriteOutcome → Bool
  | .done _ => false
  | .panicked _ _ => true

/-- Go `func Assert(ok bool, msg string)`: `some msg` is `panic(msg)`, `none` a normal return. -/
def Assert (ok : Bool) (msg : String) : Option String :=
  if !ok then some msg else none

/-- The header loop of `WriteQueryResult`:
`for i, c := range cols { WriteString(c); if i != len(cols)-1 { WriteString("\t") } }`. -/
def writeCols (cols : List GoString) (target : Buffer) : Buffer :=
  cols.enum.foldl (fun buf ic =>
    let buf := buf ++ ic.2
    if (ic.1 : Int) ≠ (cols.length : Int) - 1 then buf ++ str "\t" else buf) target

/-- The text written for one cell: `"NULL"` when `col == nil`, else `string(col)`. -/
def cellValue : Cell → GoString
  | none => str "NULL"
  | some bs => bs

/-- The cell loop of `WriteQueryResult`:
`for i, col := range row.Data { ...; WriteString(value); if i < len(row.Data)-1 { WriteString("\t") } }`. -/
def writeCells (row : ByteRow) (target : Buffer) : Buffer :=
  row.Data.enum.foldl (fun buf ic =>
    let buf := buf ++ cellValue ic.2
    if (ic.1 : Int) < (row.Data.length : Int) - 1 then buf ++ str "\t" else buf) target

/-- The row loop of `WriteQueryResult`: `for _, row := range rows.Data { Assert(...); ... }`. -/
def writeRows (cols : List GoString) : List ByteRow → Buffer → WriteOutcome
  | [], target => .done target
  | row :: rest, target =>
    match Assert (row.Data.length == cols.length) "len(row.Data) must equal to len(cols)" with
    | some msg => .panicked msg target
    | none => writeRows cols rest (writeCells row target ++ str "\n")

/-- Go `func WriteQueryResult(rows *ByteRows, target *bytes.Buffer)`. -/
def WriteQueryResult (rows : ByteRows) (target : Buffer) : WriteOutcome :=
  writeRows rows.Cols rows.Data (writeCols rows.Cols target ++ str "\n")

/-! ## `SqlRowsToByteRows` and the `database/sql` cursor -/

/-- A Go `error` value, as far as this code tells errors apart: an error raised by the
driver, the arity error and the conversion error of `Rows.Scan`, an error wrapped by
`errors.Trace`, or an error made by `fmt.Errorf` with its formatted message. -/
inductive GoError where
  | driver (msg : String)
  | scanArity (columns dest : Nat)
  | scanConversion (column : Nat)
  | traced (cause : GoError)
  | errorf (msg : String)
deriving DecidableEq, Repr

/-- Go `errors.Cause`: the error under the `errors.Trace` wrappers. -/
def GoError.cause : GoError → GoError
  | .traced e => e.cause
  | e => e

/-- What the cursor holds for a row that `Next` has advanced to: the column values of the
row as `Scan` stores them in `[]byte` destinations, or column values of which the one at
index `column` cannot be converted by `Scan`. -/
inductive SqlRow where
  | values (vs : List Cell)
  | unconvertible (vs : List Cell) (column : Nat)
deriving DecidableEq, Repr

/-- The state of a `*sql.Rows` cursor: the rows that calls of `Next` still advance to, and
how the cursor stops after them, at the end of the result (`failure = none`) or on an error
of the driver (`failure = some err`). In both cases `Next` returns `false`; the error is
kept in the cursor for `rows.Err()`. -/
structure SqlRows where
  pending : List SqlRow
  failure : Option GoError
deriving DecidableEq, Repr

/-- Go `rows.Err()`: the error, if any, that ended the iteration. -/
def SqlRows.Err (rows : SqlRows) : Option GoError :=
  match rows.pending with
  | [] => rows.failure
  | _ :: _ => none

/-- Go `rows.Scan(args...)` with `args[i] = &tmp[i]`, called after `Next` returned `true`:
`database/sql` refuses a number of destinations different from the number of columns, and
otherwise converts each column value into its destination (a `nil` slice for NULL), failing
at a value it cannot convert. The result is `tmp` after the call. -/
def Scan (row : SqlRow) (tmp : List Cell) : Except GoError (List Cell) :=
  match row with
  | .values vs =>
    if vs.length ≠ tmp.length then .error (.scanArity vs.length tmp.length)
    else .ok vs
  | .unconvertible vs column =>
    if vs.length ≠ tmp.length then .error (.scanArity vs.length tmp.length)
    else .error (.scanConversion column)

/-- What `SqlRowsToByteRows` returns, `(*ByteRows, error)`, with the state the cursor is
left in. -/
structure ScanResult where
  rows : Option ByteRows
  err : Option GoError
  cursor : SqlRows
deriving DecidableEq, Repr

/-- The loop `for rows.Next() { ... }` of `SqlRowsToByteRows` over the rows that `Next`
still advances to; `data` is the slice accumulated so far and `failure` how the cursor stops.
When `Next` returns `false` the loop ends and the result set is returned with a `nil` error:
the function does not call `rows.Err()`. -/
def scanLoop (cols : List GoString) (failure : Option GoError) :
    List SqlRow → List ByteRow → ScanResult
  | [], data => ⟨some ⟨cols, data⟩, none, ⟨[], failure⟩⟩
  | row :: rest, data =>
    let tmp : List Cell := List.replicate cols.length none
    match Scan row tmp with
    | .error err => ⟨none, some (.traced err), ⟨rest, failure⟩⟩
    | .ok tmp => scanLoop cols failure rest (data ++ [⟨tmp⟩])

/-- Go `func SqlRowsToByteRows(rows *sql.Rows, cols []string) (*ByteRows, error)`. -/
def SqlRowsToByteRows (rows : SqlRows) (cols : List GoString) : ScanResult :=
  scanLoop cols rows.failure rows.pending []

/-! ## `Swap` -/

/-- Go `func (rows *ByteRows) Swap(i, j int)`:
`rows.Data[i], rows.Data[j] = rows.Data[j], rows.Data[i]`. Both operands are read first,
then `rows.Data[i]` and `rows.Data[j]` are assigned in that order; `none` is an
index-out-of-range panic. -/
def ByteRows.Swap (rows : ByteRows) (i j : Nat) : Option ByteRows :=
  match rows.Data[j]?, rows.Data[i]? with
  | some rj, some ri => some ⟨rows.Cols, (rows.Data.set i rj).set j ri⟩
  | _, _ => none


/-! ## Bytes of the tab-separated text -/

/-- The tab byte `'\t'`. -/
def tabByte : Byte := 9

/-- The newline byte `'\n'`. -/
def newlineByte : Byte := 10


/-! ## `waitTiFlashReplica` -/

/-- What the database answers to `db.Query(query)` in one iteration: `db.Query` fails,
`rows.Columns()` fails, or the query gives a cursor with its column names. -/
inductive QueryResponse where
  | failed (err : GoError)
  | noColumns (err : GoError)
  | opened (cols : List GoString) (rows : SqlRows)
deriving DecidableEq, Repr

/-- One iteration of the polling loop as its environment presents it: the value of
`time.Since(start)` read at the top of the iteration, in nanoseconds, and what the database
answers if the query is issued in this iteration. -/
structure Tick where
  elapsed : Int
  response : QueryResponse
deriving DecidableEq, Repr

/-- Go `time.Second*300`, a `time.Duration` in nanoseconds. -/
def pollTimeout : Int := 1000000000 * 300

/-- The error of `fmt.Errorf("Wait TiFlash replica %s.%s for too long", *dbName, table)`. -/
def timeoutError (dbName table : String) : GoError :=
  .errorf ("Wait TiFlash replica " ++ dbName ++ "." ++ table ++ " for too long")

/-- The error of `fmt.Errorf("Invalid TiFlash replica: %s.%s", *dbName, table)`. -/
def invalidReplicaError (dbName table : String) : GoError :=
  .errorf ("Invalid TiFlash replica: " ++ dbName ++ "." ++ table)

/-- The function literal `func() (ok bool, err error)` of the loop, run on the answer of the
database: its results `(ok, err)`, or `none` for the index-out-of-range panic of
`br.Data[0].Data[0]`. The branch with neither an error nor a result set stands for the
dereference of a `nil` `*ByteRows`; `SqlRowsToByteRows` never returns that pair
(`scanLoop_shape`). -/
def checkAvailable (dbName table : String) (resp : QueryResponse) :
    Option (Bool × Option GoError) :=
  match resp with
  | .failed err => some (false, some err)
  | .noColumns err => some (false, some err)
  | .opened cols rows =>
    match (SqlRowsToByteRows rows cols).err, (SqlRowsToByteRows rows cols).rows with
    | some err, _ => some (false, some err)
    | none, none => none
    | none, some br =>
      if br.Len ≠ 1 then some (false, some (invalidReplicaError dbName table))
      else
        match br.Data[0]? with
        | none => none
        | some row =>
          match row.Data[0]? with
          | none => none
          | some v => if cellBytes v = str "1" then some (true, none) else some (false, none)

/-- How a run of `waitTiFlashReplica` ends: by `return nil` after the `break`, by the
`return` of the timeout error, by `return err`, by a panic, or not within the iterations
presented to it. -/
inductive PollEnd where
  | success
  | timedOut (err : GoError)
  | failed (err : GoError)
  | panicked
  | running
deriving DecidableEq, Repr

/-- A run of `waitTiFlashReplica`: how it ends and how many queries it issued. -/
structure PollResult where
  ending : PollEnd
  queries : Nat
deriving DecidableEq, Repr

/-- The `error` that the call returns, when it returns. -/
def PollEnd.returned : PollEnd → Option (Option GoError)
  | .success => some none
  | .timedOut err => some (some err)
  | .failed err => some (some err)
  | .panicked => none
  | .running => none

/-- The loop `for { ... }` of `waitTiFlashReplica` over the iterations still to come; `n` is
the number of queries issued so far. -/
def pollLoop (dbName table : String) : List Tick → Nat → PollResult
  | [], n => ⟨.running, n⟩
  | tick :: rest, n =>
    if tick.elapsed > pollTimeout then ⟨.timedOut (timeoutError dbName table), n⟩
    else
      match checkAvailable dbName table tick.response with
      | none => ⟨.panicked, n + 1⟩
      | some (_, some err) => ⟨.failed err, n + 1⟩
      | some (true, none) => ⟨.success, n + 1⟩
      | some (false, none) => pollLoop dbName table rest (n + 1)

/-- Go `func waitTiFlashReplica(table string, db *sql.DB) error`, with the global `*dbName`
as a parameter and the database and the clock as the iterations they present. -/
def waitTiFlashReplica (dbName table : String) (db : List Tick) : PollResult :=
  pollLoop dbName table db 0

/-! ## Specification-side definitions for the poller -/

/-- The first cell of the answer when `db.Query` and `rows.Columns()` succeed and the
cursor yields exactly one row, read by `Scan` as `len(cols)` cells, at least one. How the
cursor stops after that row is not looked at. -/
def QueryResponse.singleCell : QueryResponse → Option Cell
  | .opened cols ⟨[.values (c :: vs)], _⟩ =>
    if (c :: vs).length = cols.length then some c else none
  | _ => none

/-- The answer is one row whose first cell is the byte sequence `"1"`. -/
def QueryResponse.ready (resp : QueryResponse) : Bool :=
  decide (resp.singleCell = some (some (str "1")))

/-- The answer is one row whose first cell is not the byte sequence `"1"`. -/
def QueryResponse.notReady (resp : QueryResponse) : Bool :=
  match resp.singleCell with
  | some c => decide (c ≠ some (str "1"))
  | none => false

/-- The error that the function literal of the loop gets from `db.Query`, from
`rows.Columns()` or from `SqlRowsToByteRows`. -/
def QueryResponse.error : QueryResponse → Option GoError
  | .failed err => some err
  | .noColumns err => some err
  | .opened cols rows => (SqlRowsToByteRows rows cols).err

/-- The iteration starts within the timeout and its answer is one row whose cell is not
`"1"`. -/
def Tick.retries (t : Tick) : Bool :=
  decide (t.elapsed ≤ pollTimeout) && t.response.notReady


/-! ## Specification-side definitions for the renderer -/

/-- The tab-separated line of the specification: the fields joined by a single tab,
followed by one newline. -/
def specLine (fields : List GoString) : GoString :=
  List.intercalate (str "\t") fields ++ str "\n"

/-- The rendering of the specification: the header line, then one line per row in order. -/
def specRender (rows : ByteRows) : GoString :=
  specLine rows.Cols ++ (rows.Data.map (fun row => specLine (row.Data.map cellValue))).flatten

end PushDownTest

namespace PushDownTest

/-! ## `bytes.Compare` is the lexicographic order on bytes -/

theorem compareBytes_range : ∀ (a b : List Byte),
    compareBytes a b = -1 ∨ compareBytes a b = 0 ∨ compareBytes a b = 1
  | [], [] => by simp [compareBytes]
  | [], _ :: _ => by simp [compareBytes]
  | _ :: _, [] => by simp [compareBytes]
  | x :: a, y :: b => by
    unfold compareBytes
    by_cases h1 : x < y
    · simp [h1]
    · by_cases h2 : y < x
      · simp [h1, h2]
      · simpa [h1, h2] using compareBytes_range a b

theorem compareBytes_eq_zero : ∀ (a b : List Byte), compareBytes a b = 0 ↔ a = b
  | [], [] => by simp [compareBytes]
  | [], _ :: _ => by simp [compareBytes]
  | _ :: _, [] => by simp [compareBytes]
  | x :: a, y :: b => by
    unfold compareBytes
    by_cases h1 : x < y
    · simp [h1]; intro h; exact absurd h (ne_of_lt h1)
    · by_cases h2 : y < x
      · simp [h1, h2]; intro h; exact absurd h.symm (ne_of_lt h2)
      · have hxy : x = y := le_antisymm (not_lt.mp h2) (not_lt.mp h1)
        simp [h1, h2, hxy, compareBytes_eq_zero a b]

theorem compareBytes_eq_neg_one : ∀ (a b : List Byte),
    compareBytes a b = -1 ↔ List.Lex (· < ·) a b
  | [], [] => by simp [compareBytes, List.Lex.not_nil_right]
  | [], _ :: _ => by simp [compareBytes, List.Lex.nil]
  | _ :: _, [] => by simp [compareBytes, List.Lex.not_nil_right]
  | x :: a, y :: b => by
    unfold compareBytes
    by_cases h1 : x < y
    · simp [h1, List.Lex.rel h1]
    · by_cases h2 : y < x
      · simp only [h1, h2, if_false, if_true]
        constructor
        · intro h; exact absurd h (by decide)
        · intro h
          cases h with
          | cons h => exact absurd h2 (lt_irrefl _)
          | rel h => exact absurd h h1
      · have hxy : x = y := le_antisymm (not_lt.mp h2) (not_lt.mp h1)
        subst hxy
        simp only [h1, if_false]
        rw [compareBytes_eq_neg_one a b, List.Lex.cons_iff]

theorem compareBytes_eq_one : ∀ (a b : List Byte),
    compareBytes a b = 1 ↔ List.Lex (· < ·) b a
  | [], [] => by simp [compareBytes, List.Lex.not_nil_right]
  | [], _ :: _ => by simp [compareBytes, List.Lex.not_nil_right]
  | _ :: _, [] => by simp [compareBytes, List.Lex.nil]
  | x :: a, y :: b => by
    unfold compareBytes
    by_cases h1 : x < y
    · simp only [h1, if_true]
      constructor
      · intro h; exact absurd h (by decide)
      · intro h
        cases h with
        | cons h => exact absurd h1 (lt_irrefl _)
        | rel h => exact absurd h (not_lt.mpr (le_of_lt h1))
    · by_cases h2 : y < x
      · simp [h1, h2, List.Lex.rel h2]
      · have hxy : x = y := le_antisymm (not_lt.mp h2) (not_lt.mp h1)
        subst hxy
        simp only [h1, if_false]
        rw [compareBytes_eq_one a b, List.Lex.cons_iff]

/-! ## The loop of `Less` -/

theorem lessLoop_range_from (r1 r2 : ByteRow) :
    ∀ (n i : Nat), i + n = r1.Data.length →
      lessLoop r1 r2 (List.range' i n) = lessCells (r1.Data.drop i) (r2.Data.drop i)
  | 0, i, h => by
    have hi : r1.Data.length ≤ i := by omega
    simp [lessLoop, List.drop_eq_nil_of_le hi, lessCells]
  | n + 1, i, h => by
    have hi : i < r1.Data.length := by omega
    have ih := lessLoop_range_from r1 r2 n (i + 1) (by omega)
    rw [List.range'_succ, List.drop_eq_getElem_cons hi]
    by_cases hj : i < r2.Data.length
    · rw [List.drop_eq_getElem_cons hj]
      simp only [lessLoop, List.getElem?_eq_getElem hi, List.getElem?_eq_getElem hj, lessCells]
      rw [ih]
    · have hj2 : r2.Data.length ≤ i := by omega
      rw [List.drop_eq_nil_of_le hj2]
      simp only [lessLoop, List.getElem?_eq_getElem hi, List.getElem?_eq_none hj2, lessCells]

/-- The loop of `Less` over `i = 0 .. len(r1.Data)-1` is the recursion `lessCells`. -/
theorem lessLoop_range (r1 r2 : ByteRow) : ByteRow.Less r1 r2 = lessCells r1.Data r2.Data := by
  unfold ByteRow.Less
  rw [List.range_eq_range']
  simpa using lessLoop_range_from r1 r2 r1.Data.length 0 (by simp)

theorem lex_cons_cases {α : Type} {r : α → α → Prop} {x y : α} {l1 l2 : List α}
    (h : List.Lex r (x :: l1) (y :: l2)) : r x y ∨ (x = y ∧ List.Lex r l1 l2) := by
  cases h with
  | cons h => exact Or.inr ⟨rfl, h⟩
  | rel h => exact Or.inl h

theorem lessCells_cons_lt (a b : Cell) (as bs : List Cell)
    (h : compareBytes (cellBytes a) (cellBytes b) = -1) :
    lessCells (a :: as) (b :: bs) = some true := by
  simp [lessCells, bytesCompare, h]

theorem lessCells_cons_gt (a b : Cell) (as bs : List Cell)
    (h : compareBytes (cellBytes a) (cellBytes b) = 1) :
    lessCells (a :: as) (b :: bs) = some false := by
  simp [lessCells, bytesCompare, h]

theorem lessCells_cons_eq (a b : Cell) (as bs : List Cell)
    (h : compareBytes (cellBytes a) (cellBytes b) = 0) :
    lessCells (a :: as) (b :: bs) = lessCells as bs := by
  simp [lessCells, bytesCompare, h]

/-- When the second row is at least as wide as the first, the loop returns a verdict. -/
theorem lessCells_total : ∀ (as bs : List Cell), as.length ≤ bs.length →
    lessCells as bs = some true ∨ lessCells as bs = some false
  | [], _, _ => by simp [lessCells]
  | _ :: _, [], h => by simp at h
  | a :: as, b :: bs, h => by
    rcases compareBytes_range (cellBytes a) (cellBytes b) with hc | hc | hc
    · exact Or.inl (lessCells_cons_lt a b as bs hc)
    · rw [lessCells_cons_eq a b as bs hc]
      exact lessCells_total as bs (by simpa using h)
    · exact Or.inr (lessCells_cons_gt a b as bs hc)

/-- The loop answers `true` exactly when some column holds a strictly smaller cell of the
first row after columns of equal cells. -/
theorem lessCells_true_iff : ∀ (as bs : List Cell),
    lessCells as bs = some true ↔
      ∃ k a b, as[k]? = some a ∧ bs[k]? = some b ∧
        (∀ m : Nat, m < k → ∀ a' b', as[m]? = some a' → bs[m]? = some b' →
          cellBytes a' = cellBytes b') ∧
        List.Lex (· < ·) (cellBytes a) (cellBytes b)
  | [], bs => by simp [lessCells]
  | a :: as, [] => by simp [lessCells]
  | a :: as, b :: bs => by
    have ih := lessCells_true_iff as bs
    rcases compareBytes_range (cellBytes a) (cellBytes b) with h | h | h
    · rw [lessCells_cons_lt a b as bs h]
      simp only [true_iff]
      exact ⟨0, a, b, by simp, by simp, fun m hm => absurd hm (Nat.not_lt_zero m),
        (compareBytes_eq_neg_one _ _).mp h⟩
    · have heq := (compareBytes_eq_zero _ _).mp h
      rw [lessCells_cons_eq a b as bs h, ih]
      constructor
      · rintro ⟨k, x, y, hx, hy, hpre, hlt⟩
        refine ⟨k + 1, x, y, by simpa using hx, by simpa using hy, ?_, hlt⟩
        intro m hm a' b' ha' hb'
        cases m with
        | zero =>
          simp at ha' hb'
          subst ha' hb'
          exact heq
        | succ m =>
          exact hpre m (by omega) a' b' (by simpa using ha') (by simpa using hb')
      · rintro ⟨k, x, y, hx, hy, hpre, hlt⟩
        cases k with
        | zero =>
          simp at hx hy
          subst hx hy
          have h2 := (compareBytes_eq_neg_one _ _).mpr hlt
          rw [h] at h2
          exact absurd h2 (by decide)
        | succ k =>
          exact ⟨k, x, y, by simpa using hx, by simpa using hy,
            fun m hm a' b' ha' hb' =>
              hpre (m + 1) (by omega) a' b' (by simpa using ha') (by simpa using hb'),
            hlt⟩
    · rw [lessCells_cons_gt a b as bs h]
      simp only [Option.some.injEq, Bool.false_eq_true, false_iff]
      rintro ⟨k, x, y, hx, hy, hpre, hlt⟩
      cases k with
      | zero =>
        simp at hx hy
        subst hx hy
        have h2 := (compareBytes_eq_neg_one _ _).mpr hlt
        rw [h] at h2
        exact absurd h2 (by decide)
      | succ k =>
        have h2 := (compareBytes_eq_zero _ _).mpr (hpre 0 (by omega) a b (by simp) (by simp))
        rw [h] at h2
        exact absurd h2 (by decide)

/-- The first column whose cells differ decides the verdict, whatever follows it. -/
theorem lessCells_first_diff : ∀ (k : Nat) (as bs : List Cell) (a b : Cell),
    as[k]? = some a → bs[k]? = some b →
    (∀ m : Nat, m < k → ∀ a' b', as[m]? = some a' → bs[m]? = some b' →
      cellBytes a' = cellBytes b') →
    cellBytes a ≠ cellBytes b →
    lessCells as bs = some (decide (compareBytes (cellBytes a) (cellBytes b) = -1))
  | _, [], _, _, _, h, _, _, _ => by simp at h
  | _, _ :: _, [], _, _, _, h, _, _ => by simp at h
  | 0, x :: as, y :: bs, a, b, ha, hb, _, hne => by
    simp at ha hb
    subst ha hb
    rcases compareBytes_range (cellBytes x) (cellBytes y) with h | h | h
    · rw [lessCells_cons_lt x y as bs h]; simp [h]
    · exact absurd ((compareBytes_eq_zero _ _).mp h) hne
    · rw [lessCells_cons_gt x y as bs h]; simp [h]
  | k + 1, x :: as, y :: bs, a, b, ha, hb, hpre, hne => by
    have h0 := (compareBytes_eq_zero _ _).mpr (hpre 0 (by omega) x y (by simp) (by simp))
    rw [lessCells_cons_eq x y as bs h0]
    exact lessCells_first_diff k as bs a b (by simpa using ha) (by simpa using hb)
      (fun m hm a' b' ha' hb' =>
        hpre (m + 1) (by omega) a' b' (by simpa using ha') (by simpa using hb'))
      hne

/-- On rows of equal width the loop answers `true` exactly when the byte contents of the
first row come before those of the second in the lexicographic order of rows. -/
theorem lessCells_iff_lex : ∀ (as bs : List Cell), as.length = bs.length →
    (lessCells as bs = some true ↔
      List.Lex (List.Lex (· < ·)) (as.map cellBytes) (bs.map cellBytes))
  | [], [], _ => by simp [lessCells, List.Lex.not_nil_right]
  | [], _ :: _, h => by simp at h
  | _ :: _, [], h => by simp at h
  | a :: as, b :: bs, h => by
    have ih := lessCells_iff_lex as bs (by simpa using h)
    rcases compareBytes_range (cellBytes a) (cellBytes b) with hc | hc | hc
    · rw [lessCells_cons_lt a b as bs hc]
      simp only [true_iff, List.map_cons]
      exact List.Lex.rel ((compareBytes_eq_neg_one _ _).mp hc)
    · have heq := (compareBytes_eq_zero _ _).mp hc
      rw [lessCells_cons_eq a b as bs hc, ih, List.map_cons, List.map_cons, heq,
        List.Lex.cons_iff]
    · rw [lessCells_cons_gt a b as bs hc]
      simp only [Option.some.injEq, Bool.false_eq_true, false_iff, List.map_cons]
      intro hl
      rcases lex_cons_cases hl with hl | ⟨hl, _⟩
      · have h2 := (compareBytes_eq_neg_one _ _).mpr hl
        rw [hc] at h2
        exact absurd h2 (by decide)
      · have h2 := (compareBytes_eq_zero _ _).mpr hl
        rw [hc] at h2
        exact absurd h2 (by decide)

theorem ByteRows.Less_of_get (rows : ByteRows) (i j : Nat) (a b : ByteRow)
    (hi : rows.Data[i]? = some a) (hj : rows.Data[j]? = some b) :
    rows.Less i j = lessCells a.Data b.Data := by
  simp only [ByteRows.Less, hi, hj, lessLoop_range]

/-! ## Order lemmas for rows -/

theorem rowLex_irrefl (x : List (List Byte)) : ¬ List.Lex (List.Lex (· < ·)) x x :=
  fun h => (List.Lex.isAsymm (List.Lex ((· < ·) : Byte → Byte → Prop))).asymm x x h h

theorem rowLex_asymm {x y : List (List Byte)} (h : List.Lex (List.Lex (· < ·)) x y) :
    ¬ List.Lex (List.Lex (· < ·)) y x :=
  (List.Lex.isAsymm (List.Lex ((· < ·) : Byte → Byte → Prop))).asymm x y h

theorem rowLex_trans {x y z : List (List Byte)} (h1 : List.Lex (List.Lex (· < ·)) x y)
    (h2 : List.Lex (List.Lex (· < ·)) y z) : List.Lex (List.Lex (· < ·)) x z :=
  have h : x < z := lt_trans (show x < y from h1) (show y < z from h2)
  h

theorem rowLex_trichotomous (x y : List (List Byte)) :
    List.Lex (List.Lex (· < ·)) x y ∨ x = y ∨ List.Lex (List.Lex (· < ·)) y x :=
  (List.Lex.isTrichotomous (List.Lex ((· < ·) : Byte → Byte → Prop))).trichotomous x y

/-- On rows of equal width the loop answers `false` exactly when the first row does not come
before the second. -/
theorem lessCells_false_iff (as bs : List Cell) (h : as.length = bs.length) :
    lessCells as bs = some false ↔
      ¬ List.Lex (List.Lex (· < ·)) (as.map cellBytes) (bs.map cellBytes) := by
  rw [← lessCells_iff_lex as bs h]
  rcases lessCells_total as bs (le_of_eq h) with ht | hf
  · simp [ht]
  · simp [hf]

theorem lessCells_of_key_eq (as bs : List Cell) (h : as.map cellBytes = bs.map cellBytes) :
    lessCells as bs = some false := by
  have hl : as.length = bs.length := by
    have := congrArg List.length h
    simpa using this
  rw [lessCells_false_iff as bs hl, h]
  exact rowLex_irrefl _

theorem cellBytes_inj_of_ne_empty {x y : Cell} (hx : x ≠ some []) (hy : y ≠ some [])
    (h : cellBytes x = cellBytes y) : x = y := by
  cases x <;> cases y <;> simp_all [cellBytes]

theorem map_cellBytes_inj : ∀ (as bs : List Cell),
    (∀ c ∈ as, c ≠ some []) → (∀ c ∈ bs, c ≠ some []) →
    as.map cellBytes = bs.map cellBytes → as = bs
  | [], [], _, _, _ => rfl
  | [], _ :: _, _, _, h => by simp at h
  | _ :: _, [], _, _, h => by simp at h
  | a :: as, b :: bs, ha, hb, h => by
    simp only [List.map_cons, List.cons.injEq] at h
    have h1 := cellBytes_inj_of_ne_empty (ha a (List.mem_cons_self _ _))
      (hb b (List.mem_cons_self _ _)) h.1
    have h2 := map_cellBytes_inj as bs (fun c hc => ha c (List.mem_cons_of_mem _ hc))
      (fun c hc => hb c (List.mem_cons_of_mem _ hc)) h.2
    rw [h1, h2]

theorem map_cellBytes_of_nullEmpty {as bs : List Cell}
    (h : List.Forall₂ differOnlyByNullEmpty as bs) :
    as.map cellBytes = bs.map cellBytes := by
  induction h with
  | nil => rfl
  | cons hxy _ ih =>
    simp only [List.map_cons, List.cons.injEq]
    refine ⟨?_, ih⟩
    rcases hxy with h | ⟨h1, h2⟩ | ⟨h1, h2⟩
    · rw [h]
    · rw [h1, h2]; rfl
    · rw [h1, h2]; rfl

/-! ## Sorted result sets -/

/-- In a result set of one width that is sorted by `Less`, no row comes, in the lexicographic
order of byte contents, before a row placed before it. -/
theorem sortedByLess_pairwise (rows : ByteRows) (w : Nat)
    (hw : ∀ r ∈ rows.Data, r.Data.length = w) (hs : rows.sortedByLess) :
    rows.Data.Pairwise (fun a b => ¬ List.Lex (List.Lex (· < ·)) b.key a.key) := by
  rw [List.pairwise_iff_getElem]
  intro i j hi hj hij
  have h := hs j hj i hij
  rw [ByteRows.Less_of_get rows j i _ _ (List.getElem?_eq_getElem hj)
    (List.getElem?_eq_getElem hi)] at h
  have hwid : rows.Data[j].Data.length = rows.Data[i].Data.length :=
    (hw _ (List.getElem_mem hj)).trans (hw _ (List.getElem_mem hi)).symm
  rw [Ne, lessCells_iff_lex _ _ hwid] at h
  exact h

/-- Two result sets of one width that are sorted by `Less` and hold the same rows up to
order have the same byte contents row by row. -/
theorem sorted_perm_keys_eq (R R' : ByteRows) (w : Nat)
    (hw : ∀ r ∈ R.Data, r.Data.length = w) (hperm : R'.Data.Perm R.Data)
    (hs : R.sortedByLess) (hs' : R'.sortedByLess) :
    R.Data.map ByteRow.key = R'.Data.map ByteRow.key := by
  have hw' : ∀ r ∈ R'.Data, r.Data.length = w := fun r hr => hw r (hperm.mem_iff.mp hr)
  have p1 := sortedByLess_pairwise R w hw hs
  have p2 := sortedByLess_pairwise R' w hw' hs'
  have q1 : (R.Data.map ByteRow.key).Pairwise
      (fun x y => ¬ List.Lex (List.Lex (· < ·)) y x) := by
    rw [List.pairwise_map]; exact p1
  have q2 : (R'.Data.map ByteRow.key).Pairwise
      (fun x y => ¬ List.Lex (List.Lex (· < ·)) y x) := by
    rw [List.pairwise_map]; exact p2
  refine List.Perm.eq_of_sorted ?_ q1 q2 (hperm.symm.map ByteRow.key)
  intro x y _ _ hyx hxy
  rcases rowLex_trichotomous x y with h | h | h
  · exact absurd h hxy
  · exact h
  · exact absurd h hyx

theorem cellAt_map_cellBytes (rows : ByteRows) (i c : Nat) :
    (rows.cellAt i c).map cellBytes
      = ((rows.Data.map ByteRow.key)[i]?).bind (fun k => k[c]?) := by
  unfold ByteRows.cellAt
  rw [List.getElem?_map]
  cases rows.Data[i]? with
  | none => rfl
  | some r => simp [ByteRow.key, List.getElem?_map]

theorem rows_eq_of_keys_eq : ∀ (l l' : List ByteRow),
    (∀ r ∈ l, ∀ cell ∈ r.Data, cell ≠ some []) →
    (∀ r ∈ l', ∀ cell ∈ r.Data, cell ≠ some []) →
    l.map ByteRow.key = l'.map ByteRow.key → l = l'
  | [], [], _, _, _ => rfl
  | [], _ :: _, _, _, h => by simp at h
  | _ :: _, [], _, _, h => by simp at h
  | a :: l, b :: l', ha, hb, h => by
    simp only [List.map_cons, List.cons.injEq] at h
    have h1 : a.Data = b.Data := map_cellBytes_inj a.Data b.Data
      (ha a (List.mem_cons_self _ _)) (hb b (List.mem_cons_self _ _)) h.1
    have h2 := rows_eq_of_keys_eq l l' (fun r hr => ha r (List.mem_cons_of_mem _ hr))
      (fun r hr => hb r (List.mem_cons_of_mem _ hr)) h.2
    cases a
    cases b
    simp only [List.cons.injEq, ByteRow.mk.injEq]
    exact ⟨h1, h2⟩

/-! ## The loop of `SqlRowsToByteRows` -/

theorem Scan_values_ok (cols : List GoString) (vs : List Cell) (h : vs.length = cols.length) :
    Scan (.values vs) (List.replicate cols.length none) = .ok vs := by
  simp [Scan, h]

theorem Scan_ok_length (row : SqlRow) (tmp vs : List Cell) (h : Scan row tmp = .ok vs) :
    vs.length = tmp.length := by
  cases row with
  | unconvertible ws column =>
    by_cases hl : ws.length = tmp.length
    · simp [Scan, hl] at h
    · simp [Scan, hl] at h
  | values ws =>
    by_cases hl : ws.length = tmp.length
    · simp [Scan, hl] at h
      rw [← h]; exact hl
    · simp [Scan, hl] at h

/-- Rows that are read without error are appended, in cursor order, to the slice. -/
theorem scanLoop_values (cols : List GoString) (failure : Option GoError)
    (tail : List SqlRow) :
    ∀ (rs : List (List Cell)) (data : List ByteRow),
      (∀ r ∈ rs, r.length = cols.length) →
      scanLoop cols failure (rs.map SqlRow.values ++ tail) data
        = scanLoop cols failure tail (data ++ rs.map ByteRow.mk)
  | [], data, _ => by simp
  | r :: rs, data, h => by
    have hr : r.length = cols.length := h r (List.mem_cons_self _ _)
    have ih := scanLoop_values cols failure tail rs (data ++ [⟨r⟩])
      (fun x hx => h x (List.mem_cons_of_mem _ hx))
    rw [List.map_cons, List.cons_append]
    simp only [scanLoop, Scan_values_ok cols r hr]
    rw [ih]
    simp [List.append_assoc]

/-- Every row of a returned result set has as many cells as there are columns. -/
theorem scanLoop_widths (cols : List GoString) (failure : Option GoError) :
    ∀ (pending : List SqlRow) (data : List ByteRow) (res : ByteRows),
      (∀ row ∈ data, row.Data.length = cols.length) →
      (scanLoop cols failure pending data).rows = some res →
      res.Cols = cols ∧ ∀ row ∈ res.Data, row.Data.length = cols.length
  | [], data, res, hd, h => by
    simp only [scanLoop, Option.some.injEq] at h
    rw [← h]
    exact ⟨rfl, hd⟩
  | row :: rest, data, res, hd, h => by
    cases hs : Scan row (List.replicate cols.length none) with
    | error err => simp [scanLoop, hs] at h
    | ok vs =>
      simp only [scanLoop, hs] at h
      have hl := Scan_ok_length _ _ _ hs
      refine scanLoop_widths cols failure rest (data ++ [⟨vs⟩]) res ?_ h
      intro r hr
      rcases List.mem_append.mp hr with hr | hr
      · exact hd r hr
      · simp only [List.mem_singleton] at hr
        rw [hr]
        simpa using hl

/-- A cursor whose rows are all read without error gives them back as the result set with a
`nil` error, however the cursor stops. -/
theorem SqlRowsToByteRows_values (cols : List GoString) (failure : Option GoError)
    (rs : List (List Cell)) (h : ∀ r ∈ rs, r.length = cols.length) :
    SqlRowsToByteRows ⟨rs.map SqlRow.values, failure⟩ cols
      = ⟨some ⟨cols, rs.map ByteRow.mk⟩, none, ⟨[], failure⟩⟩ := by
  have := scanLoop_values cols failure [] rs [] h
  simp only [List.append_nil, List.nil_append] at this
  unfold SqlRowsToByteRows
  simp only []
  rw [this]
  rfl

/-- An error returned by `rows.Scan` is returned, wrapped by `errors.Trace`, with no result
set, and the rows after the failing one are left unread. -/
theorem SqlRowsToByteRows_scan_error (cols : List GoString) (failure : Option GoError)
    (pre : List (List Cell)) (bad : SqlRow) (post : List SqlRow) (e : GoError)
    (hpre : ∀ r ∈ pre, r.length = cols.length)
    (hbad : Scan bad (List.replicate cols.length none) = .error e) :
    SqlRowsToByteRows ⟨pre.map SqlRow.values ++ bad :: post, failure⟩ cols
      = ⟨none, some (.traced e), ⟨post, failure⟩⟩ := by
  unfold SqlRowsToByteRows
  simp only []
  rw [scanLoop_values cols failure (bad :: post) pre [] hpre]
  simp only [scanLoop, hbad]

/-! ## Rendering lemmas -/

theorem intercalate_cons_cons (sep x y : List Byte) (r : List (List Byte)) :
    List.intercalate sep (x :: y :: r) = x ++ sep ++ List.intercalate sep (y :: r) := by
  simp [List.intercalate, List.intersperse]

/-- A loop that writes each element and a separator after every element but the last
writes the elements joined by the separator. -/
theorem foldl_enumFrom_sep {α : Type} (f : α → List Byte) (sep : List Byte)
    (c : Nat → Prop) [DecidablePred c] :
    ∀ (xs : List α) (k : Nat) (buf : Buffer),
      (∀ i, k ≤ i → i < k + xs.length → (c i ↔ i + 1 < k + xs.length)) →
      (xs.enumFrom k).foldl (fun buf ic =>
        let buf := buf ++ f ic.2
        if c ic.1 then buf ++ sep else buf) buf
        = buf ++ List.intercalate sep (xs.map f)
  | [], k, buf, _ => by simp [List.intercalate]
  | [x], k, buf, h => by
    have hk : ¬ c k := by
      rw [h k (Nat.le_refl k) (by simp)]; simp
    simp [List.enumFrom, List.intercalate, hk]
  | x :: y :: r, k, buf, h => by
    have hk : c k := by
      rw [h k (Nat.le_refl k) (by simp)]; simp
    have ih := foldl_enumFrom_sep f sep c (y :: r) (k + 1) (buf ++ f x ++ sep)
      (fun i h1 h2 => by
        have := h i (by omega) (by simp at h2 ⊢; omega)
        simp at this ⊢
        rw [this]; omega)
    rw [List.map_cons, List.map_cons, intercalate_cons_cons, ← List.map_cons]
    rw [List.enumFrom_cons, List.foldl_cons]
    simp only [hk, if_true]
    rw [ih]
    simp [List.append_assoc]

theorem writeCols_eq (cols : List GoString) (target : Buffer) :
    writeCols cols target = target ++ List.intercalate (str "\t") cols := by
  have h := foldl_enumFrom_sep (fun c : GoString => c) (str "\t")
    (fun i => (i : Int) ≠ (cols.length : Int) - 1) cols 0 target
    (fun i _ h2 => by simp at h2 ⊢; omega)
  simpa [writeCols, List.enum] using h

theorem writeCells_eq (row : ByteRow) (target : Buffer) :
    writeCells row target = target ++ List.intercalate (str "\t") (row.Data.map cellValue) := by
  have h := foldl_enumFrom_sep cellValue (str "\t")
    (fun i => (i : Int) < (row.Data.length : Int) - 1) row.Data 0 target
    (fun i _ h2 => by simp at h2 ⊢; omega)
  simpa [writeCells, List.enum] using h

theorem writeRows_done (cols : List GoString) :
    ∀ (data : List ByteRow) (target : Buffer),
      (∀ row ∈ data, row.Data.length = cols.length) →
      writeRows cols data target
        = .done (target ++ (data.map (fun row => specLine (row.Data.map cellValue))).flatten)
  | [], target, _ => by simp [writeRows]
  | row :: rest, target, h => by
    have hrow : row.Data.length = cols.length := h row (List.mem_cons_self _ _)
    have ih := writeRows_done cols rest (writeCells row target ++ str "\n")
      (fun r hr => h r (List.mem_cons_of_mem _ hr))
    simp only [writeRows, Assert, hrow, beq_self_eq_true, Bool.not_true, Bool.false_eq_true,
      if_false]
    rw [ih, writeCells_eq]
    simp [specLine, List.append_assoc]

theorem writeRows_panicked (cols : List GoString) (bad : ByteRow) (post : List ByteRow)
    (hbad : bad.Data.length ≠ cols.length) :
    ∀ (pre : List ByteRow) (target : Buffer),
      (∀ row ∈ pre, row.Data.length = cols.length) →
      writeRows cols (pre ++ bad :: post) target
        = .panicked "len(row.Data) must equal to len(cols)"
            (target ++ (pre.map (fun row => specLine (row.Data.map cellValue))).flatten)
  | [], target, _ => by
    simp [writeRows, Assert, hbad]
  | row :: rest, target, h => by
    have hrow : row.Data.length = cols.length := h row (List.mem_cons_self _ _)
    have ih := writeRows_panicked cols bad post hbad rest (writeCells row target ++ str "\n")
      (fun r hr => h r (List.mem_cons_of_mem _ hr))
    rw [List.cons_append]
    simp only [writeRows, Assert, hrow, beq_self_eq_true, Bool.not_true,
      Bool.false_eq_true, if_false]
    rw [ih, writeCells_eq]
    simp [specLine, List.append_assoc]

/-- A list with an element failing a decidable property splits at the first such element. -/
theorem exists_first_split {α : Type} (p : α → Prop) [DecidablePred p] :
    ∀ (l : List α), (∃ x ∈ l, ¬ p x) →
      ∃ pre bad post, l = pre ++ bad :: post ∧ (∀ x ∈ pre, p x) ∧ ¬ p bad
  | [], h => by simp at h
  | x :: l, h => by
    by_cases hx : p x
    · have h2 : ∃ y ∈ l, ¬ p y := by
        obtain ⟨y, hy, hpy⟩ := h
        rcases List.mem_cons.mp hy with rfl | hy
        · exact absurd hx hpy
        · exact ⟨y, hy, hpy⟩
      obtain ⟨pre, bad, post, hl, hpre, hb⟩ := exists_first_split p l h2
      refine ⟨x :: pre, bad, post, by simp [hl], ?_, hb⟩
      intro y hy
      rcases List.mem_cons.mp hy with rfl | hy
      · exact hx
      · exact hpre y hy
    · exact ⟨[], x, l, rfl, by simp, hx⟩

/-! ## Ties and index safety of `Less` -/

theorem key_eq_iff_pointwise : ∀ (as bs : List Cell), as.length = bs.length →
    (as.map cellBytes = bs.map cellBytes ↔
      ∀ (k : Nat) (x y : Cell), as[k]? = some x → bs[k]? = some y →
        cellBytes x = cellBytes y)
  | [], [], _ => by simp
  | [], _ :: _, h => by simp at h
  | _ :: _, [], h => by simp at h
  | a :: as, b :: bs, h => by
    have ih := key_eq_iff_pointwise as bs (by simpa using h)
    simp only [List.map_cons, List.cons.injEq]
    rw [ih]
    constructor
    · rintro ⟨h0, hrest⟩ k x y hx hy
      cases k with
      | zero =>
        simp at hx hy
        subst hx hy
        exact h0
      | succ k => exact hrest k x y (by simpa using hx) (by simpa using hy)
    · intro hall
      exact ⟨hall 0 a b (by simp) (by simp),
        fun k x y hx hy => hall (k + 1) x y (by simpa using hx) (by simpa using hy)⟩

/-- When the second row is shorter than the first and agrees with it on all its cells,
the loop reads past the end of the second row. -/
theorem lessCells_none : ∀ (as bs : List Cell), bs.length < as.length →
    (∀ (k : Nat) (x y : Cell), as[k]? = some x → bs[k]? = some y →
      cellBytes x = cellBytes y) →
    lessCells as bs = none
  | [], _, h, _ => by simp at h
  | _ :: _, [], _, _ => by simp [lessCells]
  | a :: as, b :: bs, h, hall => by
    have h0 := (compareBytes_eq_zero _ _).mpr (hall 0 a b (by simp) (by simp))
    rw [lessCells_cons_eq a b as bs h0]
    exact lessCells_none as bs (by simpa using h)
      (fun k x y hx hy => hall (k + 1) x y (by simpa using hx) (by simpa using hy))

/-! ## Lemmas for `Swap` -/

theorem perm_cons_set {α : Type} : ∀ (t : List α) (k : Nat) (a x : α),
    t[k]? = some a → (a :: t.set k x).Perm (x :: t)
  | [], _, _, _, h => by simp at h
  | y :: t, 0, a, x, h => by
    simp at h
    subst h
    exact List.Perm.swap _ _ _
  | y :: t, k + 1, a, x, h => by
    have ih := perm_cons_set t k a x (by simpa using h)
    rw [List.set_cons_succ]
    exact (List.Perm.swap _ _ _).trans (((List.Perm.cons y ih)).trans (List.Perm.swap _ _ _))

/-- Exchanging two elements of a list gives a permutation of it. -/
theorem perm_set_set {α : Type} : ∀ (l : List α) (i j : Nat) (ri rj : α),
    l[i]? = some ri → l[j]? = some rj → ((l.set i rj).set j ri).Perm l
  | [], _, _, _, _, h, _ => by simp at h
  | x :: t, 0, 0, ri, rj, hi, hj => by
    simp at hi hj
    subst hi hj
    exact List.Perm.refl _
  | x :: t, 0, j + 1, ri, rj, hi, hj => by
    simp at hi
    subst hi
    simp only [List.set_cons_zero, List.set_cons_succ]
    exact perm_cons_set t j _ _ (by simpa using hj)
  | x :: t, i + 1, 0, ri, rj, hi, hj => by
    simp at hj
    subst hj
    simp only [List.set_cons_zero, List.set_cons_succ]
    exact perm_cons_set t i _ _ (by simpa using hi)
  | x :: t, i + 1, j + 1, ri, rj, hi, hj => by
    simp only [List.set_cons_succ]
    exact List.Perm.cons x (perm_set_set t i j ri rj (by simpa using hi) (by simpa using hj))

/-- Exchanging the same two elements again restores the list. -/
theorem set_set_restore {α : Type} (l : List α) (i j : Nat) (ri rj : α)
    (hi : l[i]? = some ri) (hj : l[j]? = some rj) :
    ((((l.set i rj).set j ri).set i ri).set j rj) = l := by
  have hil : i < l.length := by
    rcases List.getElem?_eq_some_iff.mp hi with ⟨h, _⟩
    exact h
  have hjl : j < l.length := by
    rcases List.getElem?_eq_some_iff.mp hj with ⟨h, _⟩
    exact h
  apply List.ext_getElem?
  intro k
  by_cases hkj : j = k
  · subst hkj
    rw [List.getElem?_set_self (by simpa using hjl), hj]
  · rw [List.getElem?_set_ne hkj]
    by_cases hki : i = k
    · subst hki
      rw [List.getElem?_set_self (by simpa using hil), hi]
    · rw [List.getElem?_set_ne hki, List.getElem?_set_ne hkj, List.getElem?_set_ne hki]

/-! ## Lemmas on the written text -/

theorem str_tab : str "\t" = [tabByte] := by decide

theorem str_newline : str "\n" = [newlineByte] := by decide

/-- What `writeRows` leaves in the buffer is the buffer on entry followed by what it writes. -/
theorem writeRows_buf_append (cols : List GoString) :
    ∀ (data : List ByteRow) (target : Buffer),
      (writeRows cols data target).buf = target ++ (writeRows cols data []).buf
  | [], target => by simp [writeRows, WriteOutcome.buf]
  | row :: rest, target => by
    by_cases h : row.Data.length = cols.length
    · simp only [writeRows, Assert, h, beq_self_eq_true, Bool.not_true, Bool.false_eq_true,
        if_false]
      rw [writeRows_buf_append cols rest (writeCells row target ++ str "\n"),
        writeRows_buf_append cols rest (writeCells row [] ++ str "\n"),
        writeCells_eq row target, writeCells_eq row []]
      simp [List.append_assoc]
    · simp [writeRows, Assert, h, WriteOutcome.buf]

/-- Rows of the expected width that come first are written line by line. -/
theorem writeRows_append_good (cols : List GoString) (tail : List ByteRow) :
    ∀ (pre : List ByteRow) (target : Buffer),
      (∀ row ∈ pre, row.Data.length = cols.length) →
      writeRows cols (pre ++ tail) target
        = writeRows cols tail
            (target ++ (pre.map (fun row => specLine (row.Data.map cellValue))).flatten)
  | [], target, _ => by simp
  | row :: rest, target, h => by
    have hrow : row.Data.length = cols.length := h row (List.mem_cons_self _ _)
    have ih := writeRows_append_good cols tail rest (writeCells row target ++ str "\n")
      (fun r hr => h r (List.mem_cons_of_mem _ hr))
    rw [List.cons_append]
    simp only [writeRows, Assert, hrow, beq_self_eq_true, Bool.not_true,
      Bool.false_eq_true, if_false]
    rw [ih, writeCells_eq]
    simp [specLine, List.append_assoc]

/-- Rows that render to the same fields are written alike. -/
theorem writeRows_congr (cols : List GoString) :
    ∀ (data data' : List ByteRow) (target : Buffer),
      List.Forall₂ (fun r r' : ByteRow => r.Data.map cellValue = r'.Data.map cellValue)
        data data' →
      writeRows cols data target = writeRows cols data' target
  | _, _, _, .nil => rfl
  | r :: data, r' :: data', target, .cons h hrest => by
    have hl : r.Data.length = r'.Data.length := by
      have := congrArg List.length h
      simpa using this
    have hc : writeCells r target = writeCells r' target := by
      rw [writeCells_eq, writeCells_eq, h]
    simp only [writeRows, hl, hc]
    cases Assert (r'.Data.length == cols.length) "len(row.Data) must equal to len(cols)" with
    | some msg => rfl
    | none => exact writeRows_congr cols data data' _ hrest

theorem forall₂_refl_fields : ∀ (data : List ByteRow),
    List.Forall₂ (fun r r' : ByteRow => r.Data.map cellValue = r'.Data.map cellValue)
      data data
  | [] => .nil
  | _ :: data => .cons rfl (forall₂_refl_fields data)

/-- The text of a field stands between what is written before it and what is written
after it, neither of which depends on the field. -/
theorem intercalate_split (sep : List Byte) : ∀ (A B : List (List Byte)),
    ∃ P S : List Byte, ∀ x : List Byte, List.intercalate sep (A ++ x :: B) = P ++ x ++ S
  | [], [] => ⟨[], [], fun x => by simp [List.intercalate]⟩
  | [], y :: B => ⟨[], sep ++ List.intercalate sep (y :: B), fun x => by
      rw [List.nil_append, intercalate_cons_cons]; simp⟩
  | y :: A, B => by
    obtain ⟨P, S, h⟩ := intercalate_split sep A B
    refine ⟨y ++ sep ++ P, S, fun x => ?_⟩
    cases A with
    | nil =>
      rw [List.cons_append, List.nil_append, intercalate_cons_cons]
      have := h x
      rw [List.nil_append] at this
      rw [this]
      simp [List.append_assoc]
    | cons z A =>
      rw [List.cons_append, List.cons_append, intercalate_cons_cons, ← List.cons_append, h x]
      simp [List.append_assoc]

theorem count_tab_intercalate : ∀ (fields : List (List Byte)), fields ≠ [] →
    (∀ f ∈ fields, tabByte ∉ f) →
    (List.intercalate [tabByte] fields).count tabByte = fields.length - 1
  | [], h, _ => absurd rfl h
  | [x], _, hf => by
    have hx : tabByte ∉ x := hf x (List.mem_singleton.mpr rfl)
    simp [List.intercalate, List.count_eq_zero.mpr hx]
  | x :: y :: r, _, hf => by
    have hx : tabByte ∉ x := hf x (List.mem_cons_self _ _)
    have ih := count_tab_intercalate (y :: r) (by simp)
      (fun f hm => hf f (List.mem_cons_of_mem _ hm))
    rw [intercalate_cons_cons, List.count_append, List.count_append, ih,
      List.count_eq_zero.mpr hx]
    simp
    omega

theorem newline_not_mem_intercalate : ∀ (fields : List (List Byte)),
    (∀ f ∈ fields, newlineByte ∉ f) →
    newlineByte ∉ List.intercalate [tabByte] fields
  | [], _ => by simp [List.intercalate]
  | [x], hf => by
    have hx : newlineByte ∉ x := hf x (List.mem_singleton.mpr rfl)
    simpa [List.intercalate] using hx
  | x :: y :: r, hf => by
    have hx : newlineByte ∉ x := hf x (List.mem_cons_self _ _)
    have ih := newline_not_mem_intercalate (y :: r)
      (fun f hm => hf f (List.mem_cons_of_mem _ hm))
    rw [intercalate_cons_cons]
    simp only [List.mem_append, not_or]
    exact ⟨⟨hx, by decide⟩, ih⟩

theorem count_newline_lines : ∀ (lines : List (List Byte)),
    (∀ l ∈ lines, newlineByte ∉ l) →
    ((lines.map (fun l => l ++ [newlineByte])).flatten).count newlineByte = lines.length
  | [], _ => by simp
  | l :: lines, h => by
    have hl : newlineByte ∉ l := h l (List.mem_cons_self _ _)
    have ih := count_newline_lines lines (fun x hx => h x (List.mem_cons_of_mem _ hx))
    rw [List.map_cons, List.flatten_cons, List.count_append, List.count_append, ih,
      List.count_eq_zero.mpr hl]
    simp
    omega

/-- On rows of the expected width `WriteQueryResult` appends the rendering of the
specification. -/
theorem WriteQueryResult_eq_specRender (rows : ByteRows) (target : Buffer)
    (h : ∀ row ∈ rows.Data, row.Data.length = rows.Cols.length) :
    WriteQueryResult rows target = .done (target ++ specRender rows) := by
  unfold WriteQueryResult
  rw [writeRows_done rows.Cols rows.Data _ h, writeCols_eq]
  simp [specRender, specLine, List.append_assoc]


/-! ## Lemmas on one iteration of the poller -/

/-- `SqlRowsToByteRows` returns an error and no result set, or no error and a result set
holding one row for each row of the cursor. -/
theorem scanLoop_shape (cols : List GoString) (failure : Option GoError) :
    ∀ (pending : List SqlRow) (data : List ByteRow),
      (∃ e, (scanLoop cols failure pending data).err = some e ∧
        (scanLoop cols failure pending data).rows = none) ∨
      (∃ br, (scanLoop cols failure pending data).err = none ∧
        (scanLoop cols failure pending data).rows = some br ∧
        br.Data.length = data.length + pending.length)
  | [], data => Or.inr ⟨⟨cols, data⟩, rfl, rfl, by simp⟩
  | row :: rest, data => by
    cases hs : Scan row (List.replicate cols.length none) with
    | error err =>
      left
      exact ⟨.traced err, by simp [scanLoop, hs], by simp [scanLoop, hs]⟩
    | ok vs =>
      simp only [scanLoop, hs]
      rcases scanLoop_shape cols failure rest (data ++ [⟨vs⟩]) with h | ⟨br, h1, h2, h3⟩
      · exact Or.inl h
      · refine Or.inr ⟨br, h1, h2, ?_⟩
        rw [h3]
        simp
        omega

theorem cellBytes_eq_one_iff (c : Cell) : cellBytes c = str "1" ↔ c = some (str "1") := by
  cases c with
  | none =>
    constructor
    · intro h; exact absurd h (by decide)
    · intro h; exact absurd h (by simp)
  | some bs => simp [cellBytes]

theorem checkAvailable_single (dbName table : String) (cols : List GoString) (c : Cell)
    (vs : List Cell) (failure : Option GoError) (h : (c :: vs).length = cols.length) :
    checkAvailable dbName table (.opened cols ⟨[.values (c :: vs)], failure⟩)
      = if c = some (str "1") then some (true, none) else some (false, none) := by
  have hs : SqlRowsToByteRows ⟨[.values (c :: vs)], failure⟩ cols
      = ⟨some ⟨cols, [⟨c :: vs⟩]⟩, none, ⟨[], failure⟩⟩ := by
    simp [SqlRowsToByteRows, scanLoop, Scan_values_ok cols (c :: vs) h]
  simp only [checkAvailable, hs, ByteRows.Len, List.length_singleton, ne_eq,
    not_true_eq_false, if_false, List.getElem?_cons_zero, cellBytes_eq_one_iff]

/-- An answer whose cursor does not yield a single row of `len(cols)` cells, at least one,
read without error, ends the iteration by an error or a panic. -/
theorem checkAvailable_other (dbName table : String) (resp : QueryResponse)
    (h : resp.singleCell = none) :
    checkAvailable dbName table resp = none ∨
      ∃ e, checkAvailable dbName table resp = some (false, some e) := by
  cases resp with
  | failed err => exact Or.inr ⟨err, rfl⟩
  | noColumns err => exact Or.inr ⟨err, rfl⟩
  | opened cols rows =>
    obtain ⟨pending, failure⟩ := rows
    rcases scanLoop_shape cols failure pending [] with ⟨e, h1, h2⟩ | ⟨br, h1, h2, h3⟩
    · right
      refine ⟨e, ?_⟩
      simp only [checkAvailable, SqlRowsToByteRows, h1]
    · simp only [List.length_nil, Nat.zero_add] at h3
      by_cases hlen : br.Data.length = 1
      · match pending, hlen, h3, h, h1, h2 with
        | [.unconvertible ws column], _, _, _, h1, _ =>
          by_cases hl : ws.length = cols.length
          · simp [scanLoop, Scan, hl] at h1
          · simp [scanLoop, Scan, hl] at h1
        | [.values []], _, _, _, _, h2 =>
          by_cases hc : cols.length = 0
          · have hb : br = ⟨cols, [⟨[]⟩]⟩ := by
              simp [scanLoop, Scan, hc] at h2
              exact h2.symm
            left
            simp [checkAvailable, SqlRowsToByteRows, scanLoop, Scan, hc, ByteRows.Len]
          · have hc' : ¬ 0 = cols.length := fun h0 => hc h0.symm
            simp [scanLoop, Scan, hc'] at h2
        | [.values (c :: vs)], _, _, h, h1, _ =>
          by_cases hw : (c :: vs).length = cols.length
          · simp [QueryResponse.singleCell, hw] at h
          · have hw' : ¬ vs.length + 1 = cols.length := by simpa using hw
            simp [scanLoop, Scan, hw'] at h1
        | [], hlen, h3, _, _, _ => rw [hlen] at h3; simp at h3
        | _ :: _ :: _, hlen, h3, _, _, _ => rw [hlen] at h3; simp at h3
      · right
        refine ⟨invalidReplicaError dbName table, ?_⟩
        simp only [checkAvailable, SqlRowsToByteRows, h1, h2, ByteRows.Len, ne_eq, hlen,
          not_false_eq_true, if_true]

theorem singleCell_ready_form (resp : QueryResponse) (c : Cell)
    (h : resp.singleCell = some c) :
    ∃ cols vs failure, resp = .opened cols ⟨[.values (c :: vs)], failure⟩ ∧
      (c :: vs).length = cols.length := by
  match resp, h with
  | .opened cols ⟨[.values (c' :: vs)], failure⟩, h =>
    by_cases hw : (c' :: vs).length = cols.length
    · simp [QueryResponse.singleCell, hw] at h
      subst h
      exact ⟨cols, vs, failure, rfl, hw⟩
    · have hw' : ¬ vs.length + 1 = cols.length := by simpa using hw
      simp [QueryResponse.singleCell, hw'] at h
  | .failed _, h => simp [QueryResponse.singleCell] at h
  | .noColumns _, h => simp [QueryResponse.singleCell] at h
  | .opened _ ⟨[], _⟩, h => simp [QueryResponse.singleCell] at h
  | .opened _ ⟨[.unconvertible _ _], _⟩, h => simp [QueryResponse.singleCell] at h
  | .opened _ ⟨[.values []], _⟩, h => simp [QueryResponse.singleCell] at h
  | .opened _ ⟨_ :: _ :: _, _⟩, h => simp [QueryResponse.singleCell] at h

theorem checkAvailable_ready (dbName table : String) (resp : QueryResponse)
    (h : resp.ready = true) : checkAvailable dbName table resp = some (true, none) := by
  have h1 : resp.singleCell = some (some (str "1")) := by
    simpa [QueryResponse.ready] using h
  obtain ⟨cols, vs, failure, rfl, hw⟩ := singleCell_ready_form resp _ h1
  rw [checkAvailable_single dbName table cols _ vs failure hw]
  simp

theorem checkAvailable_notReady (dbName table : String) (resp : QueryResponse)
    (h : resp.notReady = true) : checkAvailable dbName table resp = some (false, none) := by
  cases hc : resp.singleCell with
  | none => simp [QueryResponse.notReady, hc] at h
  | some c =>
    have hne : c ≠ some (str "1") := by
      simpa [QueryResponse.notReady, hc] using h
    obtain ⟨cols, vs, failure, rfl, hw⟩ := singleCell_ready_form resp c hc
    rw [checkAvailable_single dbName table cols c vs failure hw]
    simp [hne]

/-- The three kinds of answer: ready, not ready, and neither. -/
theorem response_cases (resp : QueryResponse) :
    resp.ready = true ∨ resp.notReady = true ∨ resp.singleCell = none := by
  cases hc : resp.singleCell with
  | none => exact Or.inr (Or.inr rfl)
  | some c =>
    by_cases h1 : c = some (str "1")
    · left
      simp [QueryResponse.ready, hc, h1]
    · right; left
      simp [QueryResponse.notReady, hc, h1]

/-! ## Lemmas on the polling loop -/

theorem pollLoop_retry_step (dbName table : String) (tick : Tick) (rest : List Tick) (n : Nat)
    (h : tick.retries = true) :
    pollLoop dbName table (tick :: rest) n = pollLoop dbName table rest (n + 1) := by
  simp only [Tick.retries, Bool.and_eq_true, decide_eq_true_eq] at h
  have h1 : ¬ tick.elapsed > pollTimeout := not_lt.mpr h.1
  simp only [pollLoop, h1, if_false, checkAvailable_notReady dbName table _ h.2]

/-- Iterations that start in time and find the replica not ready are passed one by one,
each with one query. -/
theorem pollLoop_retries (dbName table : String) (rest : List Tick) :
    ∀ (pre : List Tick) (n : Nat), (∀ t ∈ pre, t.retries = true) →
      pollLoop dbName table (pre ++ rest) n = pollLoop dbName table rest (n + pre.length)
  | [], n, _ => by simp
  | t :: pre, n, h => by
    rw [List.cons_append, pollLoop_retry_step dbName table t _ n (h t (List.mem_cons_self _ _)),
      pollLoop_retries dbName table rest pre (n + 1)
        (fun x hx => h x (List.mem_cons_of_mem _ hx))]
    simp only [List.length_cons]
    congr 1
    omega

/-- A run splits into the iterations that retry and the first one that does not. -/
theorem script_split : ∀ (db : List Tick),
    ∃ pre rest, db = pre ++ rest ∧ (∀ t ∈ pre, t.retries = true) ∧
      (rest = [] ∨ ∃ tick post, rest = tick :: post ∧ tick.retries = false)
  | [] => ⟨[], [], rfl, by simp, Or.inl rfl⟩
  | t :: db => by
    by_cases ht : t.retries = true
    · obtain ⟨pre, rest, h1, h2, h3⟩ := script_split db
      refine ⟨t :: pre, rest, by simp [h1], ?_, h3⟩
      intro x hx
      rcases List.mem_cons.mp hx with rfl | hx
      · exact ht
      · exact h2 x hx
    · exact ⟨[], t :: db, rfl, by simp, Or.inr ⟨t, db, rfl, by simpa using ht⟩⟩

/-- How the loop ends at the first iteration that does not retry. -/
theorem pollLoop_stop (dbName table : String) (tick : Tick) (post : List Tick) (n : Nat)
    (h : tick.retries = false) :
    (pollTimeout < tick.elapsed ∧
      pollLoop dbName table (tick :: post) n = ⟨.timedOut (timeoutError dbName table), n⟩) ∨
    (tick.elapsed ≤ pollTimeout ∧ tick.response.ready = true ∧
      pollLoop dbName table (tick :: post) n = ⟨.success, n + 1⟩) ∨
    (tick.elapsed ≤ pollTimeout ∧ tick.response.singleCell = none ∧
      (pollLoop dbName table (tick :: post) n = ⟨.panicked, n + 1⟩ ∨
        ∃ e, pollLoop dbName table (tick :: post) n = ⟨.failed e, n + 1⟩)) := by
  by_cases ht : pollTimeout < tick.elapsed
  · left
    exact ⟨ht, by simp [pollLoop, ht]⟩
  · right
    have hle : tick.elapsed ≤ pollTimeout := not_lt.mp ht
    have ht' : ¬ tick.elapsed > pollTimeout := ht
    rcases response_cases tick.response with hr | hr | hr
    · left
      refine ⟨hle, hr, ?_⟩
      simp only [pollLoop, ht', if_false, checkAvailable_ready dbName table _ hr]
    · simp [Tick.retries, hle, hr] at h
    · right
      refine ⟨hle, hr, ?_⟩
      rcases checkAvailable_other dbName table tick.response hr with hc | ⟨e, hc⟩
      · left
        simp only [pollLoop, ht', if_false, hc]
      · right
        exact ⟨e, by simp only [pollLoop, ht', if_false, hc]⟩

theorem pollLoop_queries_ge (dbName table : String) :
    ∀ (db : List Tick) (n : Nat), n ≤ (pollLoop dbName table db n).queries
  | [], n => by simp [pollLoop]
  | tick :: rest, n => by
    by_cases h : tick.retries = true
    · rw [pollLoop_retry_step dbName table tick rest n h]
      exact Nat.le_trans (Nat.le_succ n) (pollLoop_queries_ge dbName table rest (n + 1))
    · rcases pollLoop_stop dbName table tick rest n (by simpa using h) with
        ⟨_, h1⟩ | ⟨_, _, h1⟩ | ⟨_, _, h1 | ⟨e, h1⟩⟩ <;> rw [h1] <;> simp

/-! ## C1: what `WriteQueryResult` writes -/

/-- C1: on a result set whose rows all have `len(Cols)` cells, `WriteQueryResult` ends
normally with the buffer holding its prior content followed by the header line (column names
joined by one tab, then a newline) and one line per row in the current order (cells joined by
one tab, then a newline, a `nil` cell written as `NULL` and any other as its bytes); columns
`["id","name"]` with the row `["1", NULL]` written to an empty buffer give
`"id\tname\n1\tNULL\n"`. -/
theorem C1_WriteQueryResult_renders :
    (∀ (rows : ByteRows) (target : Buffer),
      (∀ row ∈ rows.Data, row.Data.length = rows.Cols.length) →
      WriteQueryResult rows target = .done (target ++ specRender rows)) ∧
    WriteQueryResult ⟨[str "id", str "name"], [⟨[some (str "1"), none]⟩]⟩ []
      = .done (str "id\tname\n1\tNULL\n") ∧
    str "id\tname\n1\tNULL\n"
      = [105, 100, 9, 110, 97, 109, 101, 10, 49, 9, 78, 85, 76, 76, 10] := by
  refine ⟨?_, by decide, by decide⟩
  intro rows target h
  unfold WriteQueryResult
  rw [writeRows_done rows.Cols rows.Data _ h, writeCols_eq]
  simp [specRender, specLine, List.append_assoc]

theorem C1_WriteQueryResult_renders_witness :
    WriteQueryResult ⟨[str "a", str "b"], [⟨[none, some []]⟩, ⟨[some (str "x"), none]⟩]⟩ (str ">")
      = .done (str ">" ++
          specRender ⟨[str "a", str "b"], [⟨[none, some []]⟩, ⟨[some (str "x"), none]⟩]⟩) :=
  C1_WriteQueryResult_renders.1 _ _ (by decide)

/-! ## C7, C8: the row-width assertion of `WriteQueryResult` -/

/-- C7: `WriteQueryResult` ends by the panic of `Assert` exactly when some row has a number
of cells different from the number of columns; otherwise it ends normally, whatever the
numbers of rows and columns. -/
theorem C7_WriteQueryResult_aborts_iff (rows : ByteRows) (target : Buffer) :
    ((WriteQueryResult rows target).aborted = true ↔
      ∃ row ∈ rows.Data, row.Data.length ≠ rows.Cols.length) ∧
    ((∃ buf, WriteQueryResult rows target = .done buf) ↔
      ∀ row ∈ rows.Data, row.Data.length = rows.Cols.length) ∧
    ((WriteQueryResult rows target).aborted = true →
      ∃ buf, WriteQueryResult rows target
        = .panicked "len(row.Data) must equal to len(cols)" buf) := by
  by_cases h : ∀ row ∈ rows.Data, row.Data.length = rows.Cols.length
  · have hd : WriteQueryResult rows target
        = .done (writeCols rows.Cols target ++ str "\n" ++
            (rows.Data.map (fun row => specLine (row.Data.map cellValue))).flatten) := by
      unfold WriteQueryResult
      exact writeRows_done rows.Cols rows.Data _ h
    refine ⟨?_, ?_, ?_⟩
    · rw [hd]
      constructor
      · intro ha; simp [WriteOutcome.aborted] at ha
      · rintro ⟨row, hr, hne⟩; exact absurd (h row hr) hne
    · exact ⟨fun _ => h, fun _ => ⟨_, hd⟩⟩
    · rw [hd]; intro ha; simp [WriteOutcome.aborted] at ha
  · have h2 : ∃ row ∈ rows.Data, ¬ row.Data.length = rows.Cols.length := by
      by_contra hc
      apply h
      intro row hr
      by_contra hne
      exact hc ⟨row, hr, hne⟩
    obtain ⟨pre, bad, post, hl, hpre, hb⟩ :=
      exists_first_split (fun row : ByteRow => row.Data.length = rows.Cols.length) rows.Data h2
    have hp := writeRows_panicked rows.Cols bad post hb pre
      (writeCols rows.Cols target ++ str "\n") hpre
    have hd : WriteQueryResult rows target = .panicked "len(row.Data) must equal to len(cols)"
        (writeCols rows.Cols target ++ str "\n" ++
            (pre.map (fun row => specLine (row.Data.map cellValue))).flatten) := by
      unfold WriteQueryResult
      rw [hl]; exact hp
    refine ⟨?_, ?_, ?_⟩
    · rw [hd]
      exact ⟨fun _ => h2, fun _ => rfl⟩
    · constructor
      · rintro ⟨buf, hbuf⟩
        rw [hd] at hbuf
        exact absurd hbuf (by simp)
      · intro hall; exact absurd hall h
    · intro _; exact ⟨_, hd⟩

theorem C7_WriteQueryResult_aborts_iff_witness :
    (WriteQueryResult ⟨[str "a"], [⟨[some (str "1")]⟩, ⟨[]⟩]⟩ (str "x")).aborted = true :=
  (C7_WriteQueryResult_aborts_iff ⟨[str "a"], [⟨[some (str "1")]⟩, ⟨[]⟩]⟩ (str "x")).1.mpr
    ⟨⟨[]⟩, by decide, by decide⟩

/-- C8 as stated fails: with one column `a` and one row of no cells, the call aborts after
the header line has been written into the buffer. -/
theorem C8_counterexample :
    (⟨[]⟩ : ByteRow) ∈ (⟨[str "a"], [⟨[]⟩]⟩ : ByteRows).Data ∧
    (⟨[]⟩ : ByteRow).Data.length ≠ (⟨[str "a"], [⟨[]⟩]⟩ : ByteRows).Cols.length ∧
    (WriteQueryResult ⟨[str "a"], [⟨[]⟩]⟩ (str "x")).aborted = true ∧
    (WriteQueryResult ⟨[str "a"], [⟨[]⟩]⟩ (str "x")).buf = str "xa\n" ∧
    (WriteQueryResult ⟨[str "a"], [⟨[]⟩]⟩ (str "x")).buf ≠ str "x" := by
  decide

/-- C8 (amended): the row-width assertion is made row by row, before each row is rendered:
when the first row whose cell count differs from the column count is preceded by the rows
`pre`, the call aborts with the buffer holding its content on entry, the header line and the
lines of the rows of `pre`; nothing of the offending row or of a later row is written. -/
theorem C8_WriteQueryResult_abort_buffer (cols : List GoString)
    (pre post : List ByteRow) (bad : ByteRow) (target : Buffer)
    (hpre : ∀ row ∈ pre, row.Data.length = cols.length)
    (hbad : bad.Data.length ≠ cols.length) :
    WriteQueryResult ⟨cols, pre ++ bad :: post⟩ target
      = .panicked "len(row.Data) must equal to len(cols)"
          (target ++ specRender ⟨cols, pre⟩) := by
  unfold WriteQueryResult
  simp only []
  rw [writeRows_panicked cols bad post hbad pre _ hpre, writeCols_eq]
  simp [specRender, specLine, List.append_assoc]

theorem C8_WriteQueryResult_abort_buffer_witness :
    WriteQueryResult ⟨[str "a"], [⟨[some (str "1")]⟩] ++ ⟨[]⟩ :: [⟨[none]⟩]⟩ (str "x")
      = .panicked "len(row.Data) must equal to len(cols)"
          (str "x" ++ specRender ⟨[str "a"], [⟨[some (str "1")]⟩]⟩) :=
  C8_WriteQueryResult_abort_buffer [str "a"] [⟨[some (str "1")]⟩] [⟨[none]⟩] ⟨[]⟩ (str "x")
    (by decide) (by decide)

/-! ## C3: what `Less` computes -/

/-- C3: when rows `i` and `j` have the same number of cells, `Less(i, j)` returns a verdict,
and the verdict is `true` exactly when some column `k` holds a cell of row `i` strictly
smaller, in the byte-wise lexicographic order, than the cell of row `j`, the cells of all
columns before `k` being equal as byte sequences; the first column with a nonzero comparison
decides: any two rows that agree with rows `i` and `j` up to that column get the same verdict,
whatever their later columns hold. -/
theorem C3_Less_first_difference (rows : ByteRows) (i j : Nat) (r1 r2 : ByteRow)
    (hi : rows.Data[i]? = some r1) (hj : rows.Data[j]? = some r2)
    (hw : r1.Data.length = r2.Data.length) :
    (rows.Less i j = some true ∨ rows.Less i j = some false) ∧
    (rows.Less i j = some true ↔
      ∃ k a b, r1.Data[k]? = some a ∧ r2.Data[k]? = some b ∧
        (∀ m : Nat, m < k → ∀ a' b', r1.Data[m]? = some a' → r2.Data[m]? = some b' →
          cellBytes a' = cellBytes b') ∧
        List.Lex (· < ·) (cellBytes a) (cellBytes b)) ∧
    (∀ (k : Nat) (a b : Cell), r1.Data[k]? = some a → r2.Data[k]? = some b →
      (∀ m : Nat, m < k → ∀ a' b', r1.Data[m]? = some a' → r2.Data[m]? = some b' →
        bytesCompare a' b' = 0) →
      bytesCompare a b ≠ 0 →
      ∀ (rows' : ByteRows) (r1' r2' : ByteRow),
        rows'.Data[i]? = some r1' → rows'.Data[j]? = some r2' →
        r1'.Data.take (k + 1) = r1.Data.take (k + 1) →
        r2'.Data.take (k + 1) = r2.Data.take (k + 1) →
        rows'.Less i j = some (decide (bytesCompare a b = -1))) := by
  rw [ByteRows.Less_of_get rows i j r1 r2 hi hj]
  refine ⟨lessCells_total _ _ (le_of_eq hw), lessCells_true_iff _ _, ?_⟩
  intro k a b ha hb hpre hne rows' r1' r2' hi' hj' ht1 ht2
  rw [ByteRows.Less_of_get rows' i j r1' r2' hi' hj']
  have hget1 : ∀ m : Nat, m < k + 1 → r1'.Data[m]? = r1.Data[m]? := by
    intro m hm
    have h1 := List.getElem?_take_of_lt (l := r1'.Data) hm
    have h2 := List.getElem?_take_of_lt (l := r1.Data) hm
    rw [← h1, ← h2, ht1]
  have hget2 : ∀ m : Nat, m < k + 1 → r2'.Data[m]? = r2.Data[m]? := by
    intro m hm
    have h1 := List.getElem?_take_of_lt (l := r2'.Data) hm
    have h2 := List.getElem?_take_of_lt (l := r2.Data) hm
    rw [← h1, ← h2, ht2]
  refine lessCells_first_diff k r1'.Data r2'.Data a b
    (by rw [hget1 k (by omega)]; exact ha) (by rw [hget2 k (by omega)]; exact hb) ?_ ?_
  · intro m hm a' b' ha' hb'
    rw [hget1 m (by omega)] at ha'
    rw [hget2 m (by omega)] at hb'
    exact (compareBytes_eq_zero _ _).mp (hpre m hm a' b' ha' hb')
  · intro heq
    exact hne ((compareBytes_eq_zero _ _).mpr heq)

theorem C3_Less_first_difference_witness :
    (⟨[str "a", str "b"], [⟨[some (str "x"), none]⟩, ⟨[some (str "x"), some (str "y")]⟩]⟩
        : ByteRows).Less 0 1 = some true ∨
    (⟨[str "a", str "b"], [⟨[some (str "x"), none]⟩, ⟨[some (str "x"), some (str "y")]⟩]⟩
        : ByteRows).Less 0 1 = some false :=
  (C3_Less_first_difference
    ⟨[str "a", str "b"], [⟨[some (str "x"), none]⟩, ⟨[some (str "x"), some (str "y")]⟩]⟩
    0 1 ⟨[some (str "x"), none]⟩ ⟨[some (str "x"), some (str "y")]⟩ rfl rfl rfl).1

/-! ## C4: `Less` is a strict weak order on rows of one width -/

/-- C4: on a result set whose rows all have one width, `Less` is irreflexive, asymmetric and
transitive, and incomparability (neither `Less(i, j)` nor `Less(j, i)`) is transitive. -/
theorem C4_Less_strict_weak_order (rows : ByteRows) (w : Nat)
    (hw : ∀ r ∈ rows.Data, r.Data.length = w) (i j k : Nat)
    (hi : i < rows.Len) (hj : j < rows.Len) (hk : k < rows.Len) :
    rows.Less i i = some false ∧
    (rows.Less i j = some true → rows.Less j i = some false) ∧
    (rows.Less i j = some true → rows.Less j k = some true → rows.Less i k = some true) ∧
    (rows.Less i j = some false → rows.Less j i = some false →
      rows.Less j k = some false → rows.Less k j = some false →
      rows.Less i k = some false ∧ rows.Less k i = some false) := by
  unfold ByteRows.Len at hi hj hk
  have gi : rows.Data[i]? = some rows.Data[i] := List.getElem?_eq_getElem hi
  have gj : rows.Data[j]? = some rows.Data[j] := List.getElem?_eq_getElem hj
  have gk : rows.Data[k]? = some rows.Data[k] := List.getElem?_eq_getElem hk
  have wi : rows.Data[i].Data.length = w := hw _ (List.getElem_mem hi)
  have wj : rows.Data[j].Data.length = w := hw _ (List.getElem_mem hj)
  have wk : rows.Data[k].Data.length = w := hw _ (List.getElem_mem hk)
  rw [ByteRows.Less_of_get rows i i _ _ gi gi, ByteRows.Less_of_get rows i j _ _ gi gj,
    ByteRows.Less_of_get rows j i _ _ gj gi, ByteRows.Less_of_get rows j k _ _ gj gk,
    ByteRows.Less_of_get rows k j _ _ gk gj, ByteRows.Less_of_get rows i k _ _ gi gk,
    ByteRows.Less_of_get rows k i _ _ gk gi]
  rw [lessCells_false_iff _ _ rfl, lessCells_false_iff _ _ (wj.trans wi.symm),
    lessCells_false_iff _ _ (wj.trans wk.symm), lessCells_false_iff _ _ (wk.trans wj.symm),
    lessCells_false_iff _ _ (wi.trans wk.symm), lessCells_false_iff _ _ (wk.trans wi.symm),
    lessCells_false_iff _ _ (wi.trans wj.symm),
    lessCells_iff_lex _ _ (wi.trans wj.symm), lessCells_iff_lex _ _ (wj.trans wk.symm),
    lessCells_iff_lex _ _ (wi.trans wk.symm)]
  refine ⟨rowLex_irrefl _, fun h => rowLex_asymm h, fun h1 h2 => rowLex_trans h1 h2, ?_⟩
  intro h1 h2 h3 h4
  have e1 : rows.Data[i].Data.map cellBytes = rows.Data[j].Data.map cellBytes := by
    rcases rowLex_trichotomous (rows.Data[i].Data.map cellBytes)
      (rows.Data[j].Data.map cellBytes) with h | h | h
    · exact absurd h h1
    · exact h
    · exact absurd h h2
  have e2 : rows.Data[j].Data.map cellBytes = rows.Data[k].Data.map cellBytes := by
    rcases rowLex_trichotomous (rows.Data[j].Data.map cellBytes)
      (rows.Data[k].Data.map cellBytes) with h | h | h
    · exact absurd h h3
    · exact h
    · exact absurd h h4
  rw [e1, e2]
  exact ⟨rowLex_irrefl _, rowLex_irrefl _⟩

theorem C4_Less_strict_weak_order_witness :
    (⟨[str "a"], [⟨[none]⟩, ⟨[some []]⟩, ⟨[some (str "x")]⟩]⟩ : ByteRows).Less 0 0
      = some false :=
  (C4_Less_strict_weak_order ⟨[str "a"], [⟨[none]⟩, ⟨[some []]⟩, ⟨[some (str "x")]⟩]⟩ 1
    (by decide) 0 1 2 (by decide) (by decide) (by decide)).1

/-! ## C5: trichotomy of `Less` -/

/-- C5 as stated fails: the rows `[NULL]` and `[""]` have the same width, neither is `Less`
than the other, and they are not the same row (a NULL cell faces an empty byte sequence). -/
theorem C5_counterexample :
    (⟨[str "a"], [⟨[none]⟩, ⟨[some []]⟩]⟩ : ByteRows).Less 0 1 = some false ∧
    (⟨[str "a"], [⟨[none]⟩, ⟨[some []]⟩]⟩ : ByteRows).Less 1 0 = some false ∧
    (⟨[none]⟩ : ByteRow).Data.length = (⟨[some []]⟩ : ByteRow).Data.length ∧
    (⟨[none]⟩ : ByteRow) ≠ ⟨[some []]⟩ ∧
    (⟨[str "a"], [⟨[none]⟩, ⟨[some []]⟩]⟩ : ByteRows).cellAt 0 0 = some none ∧
    (⟨[str "a"], [⟨[none]⟩, ⟨[some []]⟩]⟩ : ByteRows).cellAt 1 0 = some (some []) := by
  decide

/-- C5 (amended): for two rows of the same width exactly one of the following holds: the
first is `Less` than the second, the second is `Less` than the first, or the two rows have the
same byte content in every column, a NULL cell counting as the empty byte sequence; when no
cell of either row is an empty non-NULL byte sequence, the third case is that the two rows
are the same row. -/
theorem C5_Less_trichotomy_on_bytes (rows : ByteRows) (i j : Nat) (a b : ByteRow)
    (hi : rows.Data[i]? = some a) (hj : rows.Data[j]? = some b)
    (hw : a.Data.length = b.Data.length) :
    ((rows.Less i j = some true ∨ rows.Less j i = some true ∨ a.key = b.key) ∧
      ¬ (rows.Less i j = some true ∧ rows.Less j i = some true) ∧
      ¬ (rows.Less i j = some true ∧ a.key = b.key) ∧
      ¬ (rows.Less j i = some true ∧ a.key = b.key)) ∧
    ((∀ c ∈ a.Data, c ≠ some []) → (∀ c ∈ b.Data, c ≠ some []) → (a.key = b.key ↔ a = b)) := by
  rw [ByteRows.Less_of_get rows i j a b hi hj, ByteRows.Less_of_get rows j i b a hj hi,
    lessCells_iff_lex _ _ hw, lessCells_iff_lex _ _ hw.symm]
  unfold ByteRow.key
  refine ⟨⟨?_, ?_, ?_, ?_⟩, ?_⟩
  · rcases rowLex_trichotomous (a.Data.map cellBytes) (b.Data.map cellBytes) with h | h | h
    · exact Or.inl h
    · exact Or.inr (Or.inr h)
    · exact Or.inr (Or.inl h)
  · rintro ⟨h1, h2⟩
    exact rowLex_asymm h1 h2
  · rintro ⟨h1, h2⟩
    rw [h2] at h1
    exact rowLex_irrefl _ h1
  · rintro ⟨h1, h2⟩
    rw [h2] at h1
    exact rowLex_irrefl _ h1
  · intro ha hb
    constructor
    · intro h
      have hd := map_cellBytes_inj a.Data b.Data ha hb h
      cases a
      cases b
      simp only [ByteRow.mk.injEq]
      exact hd
    · intro h
      rw [h]

theorem C5_Less_trichotomy_on_bytes_witness :
    ¬ ((⟨[str "a"], [⟨[none]⟩, ⟨[some []]⟩]⟩ : ByteRows).Less 0 1 = some true ∧
        (⟨[none]⟩ : ByteRow).key = (⟨[some []]⟩ : ByteRow).key) :=
  (C5_Less_trichotomy_on_bytes ⟨[str "a"], [⟨[none]⟩, ⟨[some []]⟩]⟩ 0 1 ⟨[none]⟩ ⟨[some []]⟩
    rfl rfl rfl).1.2.2.1

/-! ## C6: NULL cells in the ordering -/

/-- C6 as stated fails: the rows `[NULL]` and `["a"]` differ only in that one holds NULL
where the other holds a non-NULL byte sequence, and the first is `Less` than the second. -/
theorem C6_counterexample :
    List.Forall₂ differOnlyByNull (⟨[none]⟩ : ByteRow).Data
      (⟨[some (str "a")]⟩ : ByteRow).Data ∧
    (⟨[str "c"], [⟨[none]⟩, ⟨[some (str "a")]⟩]⟩ : ByteRows).Less 0 1 = some true :=
  ⟨List.Forall₂.cons (Or.inr (Or.inl ⟨rfl, by decide⟩)) List.Forall₂.nil, by decide⟩

/-- C6 (amended): `Less` does not distinguish a NULL cell from an empty non-NULL cell: for
two rows that are identical except that in some columns one holds NULL where the other holds
the empty byte sequence, neither row is `Less` than the other. -/
theorem C6_Less_null_like_empty (rows : ByteRows) (i j : Nat) (a b : ByteRow)
    (hi : rows.Data[i]? = some a) (hj : rows.Data[j]? = some b)
    (h : List.Forall₂ differOnlyByNullEmpty a.Data b.Data) :
    rows.Less i j = some false ∧ rows.Less j i = some false := by
  rw [ByteRows.Less_of_get rows i j a b hi hj, ByteRows.Less_of_get rows j i b a hj hi]
  have hkey : a.Data.map cellBytes = b.Data.map cellBytes := map_cellBytes_of_nullEmpty h
  exact ⟨lessCells_of_key_eq _ _ hkey, lessCells_of_key_eq _ _ hkey.symm⟩

theorem C6_Less_null_like_empty_witness :
    (⟨[str "c", str "d"], [⟨[none, some (str "x")]⟩, ⟨[some [], some (str "x")]⟩]⟩
        : ByteRows).Less 0 1 = some false ∧
    (⟨[str "c", str "d"], [⟨[none, some (str "x")]⟩, ⟨[some [], some (str "x")]⟩]⟩
        : ByteRows).Less 1 0 = some false :=
  C6_Less_null_like_empty
    ⟨[str "c", str "d"], [⟨[none, some (str "x")]⟩, ⟨[some [], some (str "x")]⟩]⟩ 0 1
    ⟨[none, some (str "x")]⟩ ⟨[some [], some (str "x")]⟩ rfl rfl
    (List.Forall₂.cons (Or.inr (Or.inl ⟨rfl, rfl⟩))
      (List.Forall₂.cons (Or.inl rfl) List.Forall₂.nil))

/-! ## C2: order-independence of sorted result sets -/

/-- C2 as stated fails: the result sets with rows `[NULL], [""]` and `[""], [NULL]` are
permutations of each other, have one width and are both sorted with respect to `Less`, and
at row 0, column 0 a NULL cell faces an empty non-NULL cell. -/
theorem C2_counterexample :
    (⟨[str "c"], [⟨[some []]⟩, ⟨[none]⟩]⟩ : ByteRows).Data.Perm
      (⟨[str "c"], [⟨[none]⟩, ⟨[some []]⟩]⟩ : ByteRows).Data ∧
    (∀ r ∈ (⟨[str "c"], [⟨[none]⟩, ⟨[some []]⟩]⟩ : ByteRows).Data, r.Data.length = 1) ∧
    (⟨[str "c"], [⟨[none]⟩, ⟨[some []]⟩]⟩ : ByteRows).sortedByLess ∧
    (⟨[str "c"], [⟨[some []]⟩, ⟨[none]⟩]⟩ : ByteRows).sortedByLess ∧
    (⟨[str "c"], [⟨[none]⟩, ⟨[some []]⟩]⟩ : ByteRows).cellAt 0 0 = some none ∧
    (⟨[str "c"], [⟨[some []]⟩, ⟨[none]⟩]⟩ : ByteRows).cellAt 0 0 = some (some []) ∧
    (⟨[str "c"], [⟨[none]⟩, ⟨[some []]⟩]⟩ : ByteRows).cellAt 0 0
      ≠ (⟨[str "c"], [⟨[some []]⟩, ⟨[none]⟩]⟩ : ByteRows).cellAt 0 0 := by
  refine ⟨List.Perm.swap _ _ _, by decide, ?_, ?_, by decide, by decide, by decide⟩
  · unfold ByteRows.sortedByLess ByteRows.Len
    decide
  · unfold ByteRows.sortedByLess ByteRows.Len
    decide

/-- C2 (amended): for a result set `R` whose rows all have the same width and a permutation
`R'` of its rows, if both row sequences are sorted with respect to `Less`, then at every row
index and column the cells of `R` and `R'` have the same byte content, a NULL cell counting
as the empty byte sequence; if moreover no cell of `R` is an empty non-NULL byte sequence,
`R` and `R'` are equal position by position under the NULL-aware cell equality. -/
theorem C2_sorted_permutations_agree (R R' : ByteRows) (w : Nat)
    (hw : ∀ r ∈ R.Data, r.Data.length = w) (hperm : R'.Data.Perm R.Data)
    (hs : R.sortedByLess) (hs' : R'.sortedByLess) :
    (∀ i c : Nat, (R.cellAt i c).map cellBytes = (R'.cellAt i c).map cellBytes) ∧
    ((∀ r ∈ R.Data, ∀ cell ∈ r.Data, cell ≠ some []) →
      ∀ i c : Nat, R.cellAt i c = R'.cellAt i c) := by
  have hk := sorted_perm_keys_eq R R' w hw hperm hs hs'
  constructor
  · intro i c
    rw [cellAt_map_cellBytes, cellAt_map_cellBytes, hk]
  · intro hne i c
    have hne' : ∀ r ∈ R'.Data, ∀ cell ∈ r.Data, cell ≠ some [] :=
      fun r hr => hne r (hperm.mem_iff.mp hr)
    have hd := rows_eq_of_keys_eq R.Data R'.Data hne hne' hk
    unfold ByteRows.cellAt
    rw [hd]

theorem C2_sorted_permutations_agree_witness :
    ((⟨[str "c"], [⟨[none]⟩, ⟨[some []]⟩, ⟨[some (str "b")]⟩]⟩ : ByteRows).cellAt 0 0).map
        cellBytes
      = ((⟨[str "c"], [⟨[some []]⟩, ⟨[none]⟩, ⟨[some (str "b")]⟩]⟩ : ByteRows).cellAt 0 0).map
        cellBytes :=
  (C2_sorted_permutations_agree
    ⟨[str "c"], [⟨[none]⟩, ⟨[some []]⟩, ⟨[some (str "b")]⟩]⟩
    ⟨[str "c"], [⟨[some []]⟩, ⟨[none]⟩, ⟨[some (str "b")]⟩]⟩ 1
    (by decide) (List.Perm.swap _ _ _)
    (by unfold ByteRows.sortedByLess ByteRows.Len; decide)
    (by unfold ByteRows.sortedByLess ByteRows.Len; decide)).1 0 0

/-! ## C9, C10: `SqlRowsToByteRows` -/

/-- C9: for a cursor that yields the rows `r1..rn`, each read without error as `len(cols)`
cells, `SqlRowsToByteRows` returns no error and the result set with `Cols = cols` and
`Data = r1..rn` in cursor order, for any `n`; whenever a result set is returned every row has
`len(cols)` cells; a NULL value stays `nil`, and the empty byte sequence and the text `NULL`
stay non-NULL byte sequences. -/
theorem C9_SqlRowsToByteRows_ok :
    (∀ (cols : List GoString) (rs : List (List Cell)) (failure : Option GoError),
      (∀ r ∈ rs, r.length = cols.length) →
      SqlRowsToByteRows ⟨rs.map SqlRow.values, failure⟩ cols
        = ⟨some ⟨cols, rs.map ByteRow.mk⟩, none, ⟨[], failure⟩⟩) ∧
    (∀ (rows : SqlRows) (cols : List GoString) (res : ByteRows),
      (SqlRowsToByteRows rows cols).rows = some res →
      res.Cols = cols ∧ ∀ row ∈ res.Data, row.Data.length = cols.length) ∧
    SqlRowsToByteRows ⟨[.values [none, some [], some (str "NULL")]], none⟩
        [str "a", str "b", str "c"]
      = ⟨some ⟨[str "a", str "b", str "c"], [⟨[none, some [], some (str "NULL")]⟩]⟩,
          none, ⟨[], none⟩⟩ := by
  refine ⟨?_, ?_, by decide⟩
  · intro cols rs failure h
    exact SqlRowsToByteRows_values cols failure rs h
  · intro rows cols res h
    exact scanLoop_widths cols rows.failure rows.pending [] res (by simp) h

theorem C9_SqlRowsToByteRows_ok_witness :
    SqlRowsToByteRows
        ⟨[[some (str "1"), none], [some [], some (str "NULL")]].map SqlRow.values, none⟩
        [str "id", str "name"]
      = ⟨some ⟨[str "id", str "name"],
          [[some (str "1"), none], [some [], some (str "NULL")]].map ByteRow.mk⟩, none,
          ⟨[], none⟩⟩ :=
  C9_SqlRowsToByteRows_ok.1 [str "id", str "name"]
    [[some (str "1"), none], [some [], some (str "NULL")]] none (by decide)

/-- C10 fails on the code: on a cursor that yields the row `["1"]` and then stops on the
driver error `bad connection`, reading the next row fails, yet `SqlRowsToByteRows` returns
the result set of the row read so far with a `nil` error; the error is left unread in
`rows.Err()`. -/
theorem C10_driver_failure_not_reported :
    SqlRowsToByteRows ⟨[.values [some (str "1")]], some (.driver "bad connection")⟩ [str "id"]
      = ⟨some ⟨[str "id"], [⟨[some (str "1")]⟩]⟩, none,
          ⟨[], some (.driver "bad connection")⟩⟩ ∧
    (SqlRowsToByteRows ⟨[.values [some (str "1")]], some (.driver "bad connection")⟩
        [str "id"]).err = none ∧
    (SqlRowsToByteRows ⟨[.values [some (str "1")]], some (.driver "bad connection")⟩
        [str "id"]).cursor.Err = some (.driver "bad connection") := by
  decide

/-! ## C16: rows that tie in the sort order -/

/-- C16: two rows of the same width are equal in sort order (neither is `Less` than the
other) exactly when in every column their cells compare equal as byte sequences; a NULL cell
compares equal to an empty byte sequence. -/
theorem C16_Less_ties_iff_bytes_equal (rows : ByteRows) (i j : Nat) (a b : ByteRow)
    (hi : rows.Data[i]? = some a) (hj : rows.Data[j]? = some b)
    (hw : a.Data.length = b.Data.length) :
    ((rows.Less i j = some false ∧ rows.Less j i = some false) ↔
      ∀ (k : Nat) (x y : Cell), a.Data[k]? = some x → b.Data[k]? = some y →
        bytesCompare x y = 0) ∧
    bytesCompare none (some []) = 0 := by
  refine ⟨?_, by decide⟩
  rw [ByteRows.Less_of_get rows i j a b hi hj, ByteRows.Less_of_get rows j i b a hj hi,
    lessCells_false_iff _ _ hw, lessCells_false_iff _ _ hw.symm]
  have hp := key_eq_iff_pointwise a.Data b.Data hw
  constructor
  · rintro ⟨h1, h2⟩ k x y hx hy
    have hk : a.Data.map cellBytes = b.Data.map cellBytes := by
      rcases rowLex_trichotomous (a.Data.map cellBytes) (b.Data.map cellBytes) with h | h | h
      · exact absurd h h1
      · exact h
      · exact absurd h h2
    exact (compareBytes_eq_zero _ _).mpr (hp.mp hk k x y hx hy)
  · intro hall
    have hk : a.Data.map cellBytes = b.Data.map cellBytes :=
      hp.mpr (fun k x y hx hy => (compareBytes_eq_zero _ _).mp (hall k x y hx hy))
    rw [hk]
    exact ⟨rowLex_irrefl _, rowLex_irrefl _⟩

theorem C16_Less_ties_iff_bytes_equal_witness :
    bytesCompare none (some []) = 0 :=
  (C16_Less_ties_iff_bytes_equal
    ⟨[str "c", str "d"], [⟨[none, some (str "x")]⟩, ⟨[some [], some (str "x")]⟩]⟩ 0 1
    ⟨[none, some (str "x")]⟩ ⟨[some [], some (str "x")]⟩ rfl rfl rfl).2

/-! ## C17: index safety of `Less` -/

/-- C17: for rows `i` and `j` of the result set, `Less(i, j)` returns a verdict when row `j`
has at least as many cells as row `i`; when row `j` has fewer cells than row `i` and all its
cells compare equal to the corresponding cells of row `i`, `Less(i, j)` ends in an
index-out-of-range panic instead of a verdict. -/
theorem C17_Less_index_safety (rows : ByteRows) (i j : Nat) (a b : ByteRow)
    (hi : rows.Data[i]? = some a) (hj : rows.Data[j]? = some b) :
    (a.Data.length ≤ b.Data.length →
      rows.Less i j = some true ∨ rows.Less i j = some false) ∧
    (b.Data.length < a.Data.length →
      (∀ (k : Nat) (x y : Cell), a.Data[k]? = some x → b.Data[k]? = some y →
        bytesCompare x y = 0) →
      rows.Less i j = none) := by
  rw [ByteRows.Less_of_get rows i j a b hi hj]
  refine ⟨lessCells_total _ _, ?_⟩
  intro hlt hall
  exact lessCells_none _ _ hlt
    (fun k x y hx hy => (compareBytes_eq_zero _ _).mp (hall k x y hx hy))

theorem C17_Less_index_safety_witness :
    (⟨[str "c"], [⟨[some (str "x"), none]⟩, ⟨[some (str "x")]⟩]⟩ : ByteRows).Less 0 1 = none :=
  (C17_Less_index_safety ⟨[str "c"], [⟨[some (str "x"), none]⟩, ⟨[some (str "x")]⟩]⟩ 0 1
    ⟨[some (str "x"), none]⟩ ⟨[some (str "x")]⟩ rfl rfl).2 (by decide)
    (fun k x y hx hy => by
      cases k with
      | zero =>
        simp at hx hy
        subst hx hy
        decide
      | succ k => simp at hy)

/-! ## C18: `Swap` -/

/-- C18: for indices `i`, `j` below `Len()`, `Swap(i, j)` returns normally with the old row
`j` at position `i` and the old row `i` at position `j`; every other row, the column list
and `Len()` are unchanged, so the rows after the call are a permutation of the rows before,
and `Swap(i, j)` applied again restores the result set. -/
theorem C18_Swap_exchanges_rows (rows : ByteRows) (i j : Nat)
    (hi : i < rows.Len) (hj : j < rows.Len) :
    ∃ rows' : ByteRows, rows.Swap i j = some rows' ∧
      rows'.Data[i]? = rows.Data[j]? ∧
      rows'.Data[j]? = rows.Data[i]? ∧
      (∀ k : Nat, k ≠ i → k ≠ j → rows'.Data[k]? = rows.Data[k]?) ∧
      rows'.Cols = rows.Cols ∧
      rows'.Len = rows.Len ∧
      rows'.Data.Perm rows.Data ∧
      rows'.Swap i j = some rows := by
  unfold ByteRows.Len at hi hj
  have gi : rows.Data[i]? = some rows.Data[i] := List.getElem?_eq_getElem hi
  have gj : rows.Data[j]? = some rows.Data[j] := List.getElem?_eq_getElem hj
  have hnj : ((rows.Data.set i rows.Data[j]).set j rows.Data[i])[j]? = some rows.Data[i] :=
    List.getElem?_set_self (by simpa using hj)
  have hni : ((rows.Data.set i rows.Data[j]).set j rows.Data[i])[i]? = some rows.Data[j] := by
    by_cases hij : j = i
    · subst hij
      exact hnj
    · rw [List.getElem?_set_ne hij]
      exact List.getElem?_set_self hi
  refine ⟨⟨rows.Cols, (rows.Data.set i rows.Data[j]).set j rows.Data[i]⟩, ?_, ?_, ?_, ?_, rfl,
    ?_, ?_, ?_⟩
  · simp only [ByteRows.Swap, gi, gj]
  · rw [gj]; exact hni
  · rw [gi]; exact hnj
  · intro k hki hkj
    show ((rows.Data.set i rows.Data[j]).set j rows.Data[i])[k]? = rows.Data[k]?
    rw [List.getElem?_set_ne (Ne.symm hkj), List.getElem?_set_ne (Ne.symm hki)]
  · simp [ByteRows.Len]
  · exact perm_set_set rows.Data i j _ _ gi gj
  · simp only [ByteRows.Swap, hni, hnj]
    rw [set_set_restore rows.Data i j _ _ gi gj]

theorem C18_Swap_exchanges_rows_witness :
    ((⟨[str "c"], [⟨[none]⟩, ⟨[some (str "a")]⟩, ⟨[some (str "b")]⟩]⟩ : ByteRows).Swap 0 2).isSome
      = true := by
  obtain ⟨r, h, _⟩ := C18_Swap_exchanges_rows
    ⟨[str "c"], [⟨[none]⟩, ⟨[some (str "a")]⟩, ⟨[some (str "b")]⟩]⟩ 0 2 (by decide) (by decide)
  rw [h]
  rfl

/-! ## C19: the written text does not determine the result set -/

/-- C19 as stated fails: with the one column `a`, the result sets with rows `[], [NULL]` and
`[], [""]` hold a NULL cell and an empty non-NULL cell at the same position, row 1 column 0,
and `WriteQueryResult` leaves the same text `"a\n"` in the buffer for both: the first row has
no cell, so both calls abort before the second row is written. -/
theorem C19_counterexample :
    (⟨[str "a"], [⟨[]⟩, ⟨[none]⟩]⟩ : ByteRows).cellAt 1 0 = some none ∧
    (⟨[str "a"], [⟨[]⟩, ⟨[some []]⟩]⟩ : ByteRows).cellAt 1 0 = some (some []) ∧
    WriteQueryResult ⟨[str "a"], [⟨[]⟩, ⟨[none]⟩]⟩ []
      = WriteQueryResult ⟨[str "a"], [⟨[]⟩, ⟨[some []]⟩]⟩ [] ∧
    (WriteQueryResult ⟨[str "a"], [⟨[]⟩, ⟨[none]⟩]⟩ []).buf = str "a\n" ∧
    (WriteQueryResult ⟨[str "a"], [⟨[]⟩, ⟨[some []]⟩]⟩ []).buf = str "a\n" := by
  decide

/-- C19 (amended): two result sets with the same columns and shape, one holding a NULL cell
where the other holds the text `NULL`, are written alike by `WriteQueryResult` (shown on a
one-cell result set and for any position of any result set); a NULL cell and an empty
non-NULL cell at the same position of otherwise identical result sets leave different text
in the buffer whenever the rows before the row of that position and that row itself have
`len(Cols)` cells. -/
theorem C19_text_does_not_determine_rows :
    (WriteQueryResult ⟨[str "c"], [⟨[none]⟩]⟩ []
        = WriteQueryResult ⟨[str "c"], [⟨[some (str "NULL")]⟩]⟩ [] ∧
      (⟨[str "c"], [⟨[none]⟩]⟩ : ByteRows).cellAt 0 0
        ≠ (⟨[str "c"], [⟨[some (str "NULL")]⟩]⟩ : ByteRows).cellAt 0 0) ∧
    (∀ (cols : List GoString) (pre post : List ByteRow) (a b : List Cell) (target : Buffer),
      WriteQueryResult ⟨cols, pre ++ ⟨a ++ none :: b⟩ :: post⟩ target
        = WriteQueryResult ⟨cols, pre ++ ⟨a ++ some (str "NULL") :: b⟩ :: post⟩ target) ∧
    (∀ (cols : List GoString) (pre post : List ByteRow) (a b : List Cell) (target : Buffer),
      (∀ row ∈ pre, row.Data.length = cols.length) →
      (a ++ none :: b).length = cols.length →
      (WriteQueryResult ⟨cols, pre ++ ⟨a ++ none :: b⟩ :: post⟩ target).buf
        ≠ (WriteQueryResult ⟨cols, pre ++ ⟨a ++ some [] :: b⟩ :: post⟩ target).buf) := by
  refine ⟨⟨by decide, by decide⟩, ?_, ?_⟩
  · intro cols pre post a b target
    unfold WriteQueryResult
    refine writeRows_congr cols _ _ _ ?_
    refine List.rel_append (forall₂_refl_fields pre) (.cons ?_ (forall₂_refl_fields post))
    simp [cellValue]
  · intro cols pre post a b target hpre hw
    have hw' : (a ++ some [] :: b).length = cols.length := by
      simpa using hw
    obtain ⟨P, S, hPS⟩ := intercalate_split (str "\t") (a.map cellValue) (b.map cellValue)
    have step : ∀ c : Cell, (a ++ c :: b).length = cols.length →
        (WriteQueryResult ⟨cols, pre ++ ⟨a ++ c :: b⟩ :: post⟩ target).buf
          = (writeCols cols target ++ str "\n"
              ++ (pre.map (fun row => specLine (row.Data.map cellValue))).flatten ++ P)
            ++ (cellValue c ++ (S ++ str "\n" ++ (writeRows cols post []).buf)) := by
      intro c hc
      unfold WriteQueryResult
      simp only []
      rw [writeRows_append_good cols _ pre _ hpre]
      simp only [writeRows, Assert, hc, beq_self_eq_true, Bool.not_true, Bool.false_eq_true,
        if_false]
      rw [writeRows_buf_append, writeCells_eq]
      simp only [List.map_append, List.map_cons]
      rw [hPS (cellValue c)]
      simp [List.append_assoc]
    rw [step none hw, step (some []) hw']
    intro heq
    have h2 := List.append_cancel_left heq
    have h3 := congrArg List.length h2
    simp [cellValue, str] at h3
    omega

theorem C19_text_does_not_determine_rows_witness :
    (WriteQueryResult ⟨[str "c", str "d"],
        [⟨[some (str "x"), some (str "y")]⟩] ++ ⟨[some (str "1")] ++ none :: []⟩ :: []⟩
        (str ">")).buf
      ≠ (WriteQueryResult ⟨[str "c", str "d"],
        [⟨[some (str "x"), some (str "y")]⟩] ++ ⟨[some (str "1")] ++ some [] :: []⟩ :: []⟩
        (str ">")).buf :=
  C19_text_does_not_determine_rows.2.2 [str "c", str "d"]
    [⟨[some (str "x"), some (str "y")]⟩] [] [some (str "1")] [] (str ">")
    (by decide) (by decide)

/-! ## C15: lines and tabs of the written text -/

/-- C15: for a result set with at least one column, whose rows all have `len(Cols)` cells
and whose column names and non-NULL cells hold no tab and no newline byte, the text written
by `WriteQueryResult` is made of `1 + len(Data)` lines, each followed by one newline; no
line holds a newline and each holds exactly `len(Cols) - 1` tabs, so the text holds exactly
`1 + len(Data)` newlines. -/
theorem C15_lines_and_tabs (rows : ByteRows) (target : Buffer)
    (hc : 0 < rows.Cols.length)
    (hw : ∀ row ∈ rows.Data, row.Data.length = rows.Cols.length)
    (hcols : ∀ c ∈ rows.Cols, tabByte ∉ c ∧ newlineByte ∉ c)
    (hcells : ∀ row ∈ rows.Data, ∀ bs : List Byte, some bs ∈ row.Data →
      tabByte ∉ bs ∧ newlineByte ∉ bs) :
    ∃ lines : List (List Byte),
      lines.length = 1 + rows.Data.length ∧
      WriteQueryResult rows target
        = .done (target ++ (lines.map (fun l => l ++ [newlineByte])).flatten) ∧
      (∀ l ∈ lines, newlineByte ∉ l ∧ l.count tabByte = rows.Cols.length - 1) ∧
      ((lines.map (fun l => l ++ [newlineByte])).flatten).count newlineByte
        = 1 + rows.Data.length := by
  have hfield : ∀ row ∈ rows.Data, ∀ f ∈ row.Data.map cellValue,
      tabByte ∉ f ∧ newlineByte ∉ f := by
    intro row hrow f hf
    obtain ⟨c, hcm, rfl⟩ := List.mem_map.mp hf
    cases c with
    | none => exact ⟨by decide, by decide⟩
    | some bs => exact hcells row hrow bs hcm
  have hline : ∀ fields : List (List Byte), fields.length = rows.Cols.length →
      (∀ f ∈ fields, tabByte ∉ f ∧ newlineByte ∉ f) →
      newlineByte ∉ List.intercalate [tabByte] fields ∧
      (List.intercalate [tabByte] fields).count tabByte = rows.Cols.length - 1 := by
    intro fields hl hf
    have hne : fields ≠ [] := by
      intro h0
      rw [h0] at hl
      simp at hl
      omega
    refine ⟨newline_not_mem_intercalate fields (fun f hm => (hf f hm).2), ?_⟩
    rw [count_tab_intercalate fields hne (fun f hm => (hf f hm).1), hl]
  have hall : ∀ l ∈ (rows.Cols :: rows.Data.map (fun row => row.Data.map cellValue)).map
        (List.intercalate [tabByte]),
      newlineByte ∉ l ∧ l.count tabByte = rows.Cols.length - 1 := by
    intro l hl
    obtain ⟨fields, hm, rfl⟩ := List.mem_map.mp hl
    rcases List.mem_cons.mp hm with h0 | h1
    · rw [h0]
      exact hline rows.Cols rfl hcols
    · obtain ⟨row, hrow, rfl⟩ := List.mem_map.mp h1
      exact hline _ (by simpa using hw row hrow) (hfield row hrow)
  refine ⟨(rows.Cols :: rows.Data.map (fun row => row.Data.map cellValue)).map
    (List.intercalate [tabByte]), by simp; omega, ?_, hall, ?_⟩
  · rw [WriteQueryResult_eq_specRender rows target hw]
    simp [specRender, specLine, str_tab, str_newline, List.map_map, Function.comp_def]
  · rw [count_newline_lines _ (fun l hl => (hall l hl).1)]
    simp
    omega

theorem C15_lines_and_tabs_witness :
    (WriteQueryResult ⟨[str "id", str "name"], [⟨[some (str "1"), none]⟩]⟩ (str ">")).aborted
      = false := by
  obtain ⟨lines, _, h, _⟩ := C15_lines_and_tabs
    ⟨[str "id", str "name"], [⟨[some (str "1"), none]⟩]⟩ (str ">")
    (by decide) (by decide) (by decide)
    (by
      intro row hrow bs hbs
      simp only [List.mem_singleton] at hrow
      subst hrow
      simp only [List.mem_cons, Option.some.injEq, List.mem_singleton, or_false] at hbs
      rcases hbs with hbs | hbs
      · subst hbs
        decide
      · exact absurd hbs (by simp))
  rw [h]
  rfl

/-! ## C11: when the poller succeeds -/

/-- The poller returns `nil` after `n` queries exactly when, after `n - 1` iterations that
each start within the timeout and whose cursor yields one row with a cell other than `"1"`,
it reaches an iteration that starts within the timeout and whose cursor yields exactly one
row with first cell `"1"`; how the cursors stop after these rows plays no part. -/
theorem waitTiFlashReplica_success_iff (dbName table : String) (db : List Tick) (n : Nat) :
    waitTiFlashReplica dbName table db = ⟨.success, n⟩ ↔
      ∃ pre tick post, db = pre ++ tick :: post ∧ n = pre.length + 1 ∧
        (∀ t ∈ pre, t.retries = true) ∧
        tick.elapsed ≤ pollTimeout ∧ tick.response.ready = true := by
  constructor
  · intro h
    obtain ⟨pre, rest, hdb, hpre, hrest⟩ := script_split db
    unfold waitTiFlashReplica at h
    rw [hdb, pollLoop_retries dbName table rest pre 0 hpre, Nat.zero_add] at h
    rcases hrest with rfl | ⟨tick, post, rfl, hstop⟩
    · simp [pollLoop] at h
    · rcases pollLoop_stop dbName table tick post pre.length hstop with
        ⟨_, h1⟩ | ⟨ht, hr, h1⟩ | ⟨_, _, h1 | ⟨e, h1⟩⟩
      · rw [h1] at h; simp at h
      · rw [h1] at h
        simp only [PollResult.mk.injEq, true_and] at h
        exact ⟨pre, tick, post, hdb, h.symm, hpre, ht, hr⟩
      · rw [h1] at h; simp at h
      · rw [h1] at h; simp at h
  · rintro ⟨pre, tick, post, rfl, rfl, hpre, ht, hr⟩
    have ht' : ¬ tick.elapsed > pollTimeout := not_lt.mpr ht
    unfold waitTiFlashReplica
    rw [pollLoop_retries dbName table _ pre 0 hpre]
    simp only [pollLoop, ht', if_false, checkAvailable_ready dbName table _ hr, Nat.zero_add]

/-- C11 fails on the code: when the cursor of the first query yields the row `["1"]` and
then stops on the driver error `bad connection`, the metadata query has failed while its
rows were read, yet `waitTiFlashReplica` returns `nil` after that single query. -/
theorem C11_success_after_failed_read :
    waitTiFlashReplica "test" "t"
        [⟨0, .opened [str "available"]
          ⟨[.values [some (str "1")]], some (.driver "bad connection")⟩⟩]
      = ⟨.success, 1⟩ ∧
    (SqlRowsToByteRows ⟨[.values [some (str "1")]], some (.driver "bad connection")⟩
        [str "available"]).cursor.Err = some (.driver "bad connection") := by
  decide

/-! ## C12: an unexpected number of rows -/

/-- C12: when an iteration is reached and starts within the timeout, and its query returns
zero rows or more than one row, the poller returns the error `Invalid TiFlash replica` at
once: no query follows the one of that iteration, whatever the cells of the rows hold. -/
theorem C12_poller_unexpected_row_count (dbName table : String) (pre : List Tick)
    (tick : Tick) (post : List Tick) (cols : List GoString) (rs : List (List Cell))
    (hpre : ∀ t ∈ pre, t.retries = true)
    (ht : tick.elapsed ≤ pollTimeout)
    (hr : tick.response = .opened cols ⟨rs.map SqlRow.values, none⟩)
    (hw : ∀ r ∈ rs, r.length = cols.length)
    (hn : rs.length ≠ 1) :
    waitTiFlashReplica dbName table (pre ++ tick :: post)
      = ⟨.failed (invalidReplicaError dbName table), pre.length + 1⟩ ∧
    invalidReplicaError dbName table
      = .errorf ("Invalid TiFlash replica: " ++ dbName ++ "." ++ table) := by
  refine ⟨?_, rfl⟩
  have ht' : ¬ tick.elapsed > pollTimeout := not_lt.mpr ht
  have hs := SqlRowsToByteRows_values cols none rs hw
  have hc : checkAvailable dbName table tick.response
      = some (false, some (invalidReplicaError dbName table)) := by
    rw [hr]
    simp only [checkAvailable, hs, ByteRows.Len, List.length_map, ne_eq, hn,
      not_false_eq_true, if_true]
  unfold waitTiFlashReplica
  rw [pollLoop_retries dbName table _ pre 0 hpre]
  simp only [pollLoop, ht', if_false, hc, Nat.zero_add]

theorem C12_poller_unexpected_row_count_witness :
    waitTiFlashReplica "test" "t"
        ([] ++ ⟨0, .opened [str "available"]
          ⟨[[some (str "1")], [some (str "1")]].map SqlRow.values, none⟩⟩
          :: [⟨1, .opened [str "available"] ⟨[.values [some (str "1")]], none⟩⟩])
      = ⟨.failed (invalidReplicaError "test" "t"), ([] : List Tick).length + 1⟩ :=
  (C12_poller_unexpected_row_count "test" "t" []
    ⟨0, .opened [str "available"] ⟨[[some (str "1")], [some (str "1")]].map SqlRow.values, none⟩⟩
    [⟨1, .opened [str "available"] ⟨[.values [some (str "1")]], none⟩⟩]
    [str "available"] [[some (str "1")], [some (str "1")]]
    (by decide) (by decide) rfl (by decide) (by decide)).1

/-! ## C13: a failed query -/

/-- An error that the function literal gets from `db.Query`, from `rows.Columns()` or from
`SqlRowsToByteRows` is returned by the poller in the same iteration, with no further
query. -/
theorem waitTiFlashReplica_seen_error (dbName table : String) (pre : List Tick)
    (tick : Tick) (post : List Tick) (e : GoError)
    (hpre : ∀ t ∈ pre, t.retries = true)
    (ht : tick.elapsed ≤ pollTimeout)
    (he : tick.response.error = some e) :
    waitTiFlashReplica dbName table (pre ++ tick :: post) = ⟨.failed e, pre.length + 1⟩ := by
  have ht' : ¬ tick.elapsed > pollTimeout := not_lt.mpr ht
  have hc : checkAvailable dbName table tick.response = some (false, some e) := by
    cases hresp : tick.response with
    | failed err =>
      rw [hresp] at he
      simp only [QueryResponse.error, Option.some.injEq] at he
      rw [he]; rfl
    | noColumns err =>
      rw [hresp] at he
      simp only [QueryResponse.error, Option.some.injEq] at he
      rw [he]; rfl
    | opened cols rows =>
      rw [hresp] at he
      simp only [QueryResponse.error] at he
      simp only [checkAvailable, he]
  unfold waitTiFlashReplica
  rw [pollLoop_retries dbName table _ pre 0 hpre]
  simp only [pollLoop, ht', if_false, hc, Nat.zero_add]

/-- C13 fails on the code: when the cursor of the first query yields the row `["0"]` and
then stops on the driver error `bad connection`, reading the rows of the metadata query has
failed, yet the poller does not return that error: it issues a second query and, on the
answer `["1"]`, returns `nil`; when the cursor yields no row before the driver error, the
poller returns the error `Invalid TiFlash replica` instead of the driver error. -/
theorem C13_driver_failure_not_returned :
    waitTiFlashReplica "test" "t"
        [⟨0, .opened [str "available"]
            ⟨[.values [some (str "0")]], some (.driver "bad connection")⟩⟩,
          ⟨1, .opened [str "available"] ⟨[.values [some (str "1")]], none⟩⟩]
      = ⟨.success, 2⟩ ∧
    (SqlRowsToByteRows ⟨[.values [some (str "0")]], some (.driver "bad connection")⟩
        [str "available"]).cursor.Err = some (.driver "bad connection") ∧
    waitTiFlashReplica "test" "t"
        [⟨0, .opened [str "available"] ⟨[], some (.driver "bad connection")⟩⟩]
      = ⟨.failed (invalidReplicaError "test" "t"), 1⟩ := by
  refine ⟨by decide, by decide, rfl⟩

/-! ## C14: the timeout -/

/-- C14: `waitTiFlashReplica` returns the timeout error exactly when an iteration is
reached, after iterations that retry, at whose start more than 300 seconds have elapsed; no
query is issued in that iteration. An iteration reached at 300 seconds or less issues its
query. When every answer is one row whose cell is not `"1"`, the poller ends by the timeout
or not at all. -/
theorem C14_poller_timeout (dbName table : String) :
    (∀ (db : List Tick) (n : Nat) (e : GoError),
      waitTiFlashReplica dbName table db = ⟨.timedOut e, n⟩ ↔
        e = timeoutError dbName table ∧
        ∃ pre tick post, db = pre ++ tick :: post ∧ n = pre.length ∧
          (∀ t ∈ pre, t.retries = true) ∧ pollTimeout < tick.elapsed) ∧
    (∀ (pre : List Tick) (tick : Tick) (post : List Tick),
      (∀ t ∈ pre, t.retries = true) → tick.elapsed ≤ pollTimeout →
      pre.length + 1 ≤ (waitTiFlashReplica dbName table (pre ++ tick :: post)).queries) ∧
    (∀ db : List Tick, (∀ t ∈ db, t.response.notReady = true) →
      (waitTiFlashReplica dbName table db).ending = .running ∨
      (waitTiFlashReplica dbName table db).ending = .timedOut (timeoutError dbName table)) ∧
    pollTimeout = 300 * 1000000000 ∧
    waitTiFlashReplica dbName table
        [⟨300 * 1000000000, .opened [str "available"] ⟨[.values [some (str "1")]], none⟩⟩]
      = ⟨.success, 1⟩ ∧
    waitTiFlashReplica dbName table
        [⟨300 * 1000000000 + 1, .opened [str "available"] ⟨[.values [some (str "1")]], none⟩⟩]
      = ⟨.timedOut (timeoutError dbName table), 0⟩ := by
  refine ⟨?_, ?_, ?_, by decide, ?_, ?_⟩
  · intro db n e
    constructor
    · intro h
      obtain ⟨pre, rest, hdb, hpre, hrest⟩ := script_split db
      unfold waitTiFlashReplica at h
      rw [hdb, pollLoop_retries dbName table rest pre 0 hpre, Nat.zero_add] at h
      rcases hrest with rfl | ⟨tick, post, rfl, hstop⟩
      · simp [pollLoop] at h
      · rcases pollLoop_stop dbName table tick post pre.length hstop with
          ⟨ht, h1⟩ | ⟨_, _, h1⟩ | ⟨_, _, h1 | ⟨e', h1⟩⟩
        · rw [h1] at h
          simp only [PollResult.mk.injEq, PollEnd.timedOut.injEq] at h
          exact ⟨h.1.symm, pre, tick, post, hdb, h.2.symm, hpre, ht⟩
        · rw [h1] at h; simp at h
        · rw [h1] at h; simp at h
        · rw [h1] at h; simp at h
    · rintro ⟨rfl, pre, tick, post, rfl, rfl, hpre, ht⟩
      unfold waitTiFlashReplica
      rw [pollLoop_retries dbName table _ pre 0 hpre]
      simp [pollLoop, ht]
  · intro pre tick post hpre ht
    have ht' : ¬ tick.elapsed > pollTimeout := not_lt.mpr ht
    unfold waitTiFlashReplica
    rw [pollLoop_retries dbName table _ pre 0 hpre, Nat.zero_add]
    by_cases hr : tick.retries = true
    · rw [pollLoop_retry_step dbName table tick post _ hr]
      exact pollLoop_queries_ge dbName table post (pre.length + 1)
    · rcases pollLoop_stop dbName table tick post pre.length (by simpa using hr) with
        ⟨h0, _⟩ | ⟨_, _, h1⟩ | ⟨_, _, h1 | ⟨e, h1⟩⟩
      · exact absurd h0 ht'
      · rw [h1]
      · rw [h1]
      · rw [h1]
  · intro db hall
    obtain ⟨pre, rest, hdb, hpre, hrest⟩ := script_split db
    unfold waitTiFlashReplica
    rw [hdb, pollLoop_retries dbName table rest pre 0 hpre, Nat.zero_add]
    rcases hrest with rfl | ⟨tick, post, rfl, hstop⟩
    · left; rfl
    · have hnr : tick.response.notReady = true := hall tick (by rw [hdb]; simp)
      rcases pollLoop_stop dbName table tick post pre.length hstop with
        ⟨_, h1⟩ | ⟨ht, _, _⟩ | ⟨ht, _, _⟩
      · right; rw [h1]
      · simp [Tick.retries, ht, hnr] at hstop
      · simp [Tick.retries, ht, hnr] at hstop
  · rfl
  · rfl

theorem C14_poller_timeout_witness :
    pollTimeout < (⟨300000000001, .failed (.driver "x")⟩ : Tick).elapsed ∧
    waitTiFlashReplica "test" "t"
        ([⟨5, .opened [str "available"] ⟨[.values [some (str "0")]], none⟩⟩]
          ++ ⟨300000000001, .failed (.driver "x")⟩ :: [])
      = ⟨.timedOut (timeoutError "test" "t"), 1⟩ :=
  ⟨by decide, ((C14_poller_timeout "test" "t").1 _ 1 _).mpr
    ⟨rfl, [⟨5, .opened [str "available"] ⟨[.values [some (str "0")]], none⟩⟩],
      ⟨300000000001, .failed (.driver "x")⟩, [], rfl, rfl, by decide, by decide⟩⟩

end PushDownTest
